import Mathlib

/-!
Shallow embedding of the Polkadex matching engine (`src/lib.rs`, `src/utils.rs`,
`src/fees.rs`).  Rust `Decimal` values are modelled as exact rationals; the
engine's rounding helper truncates toward zero at 9 fractional digits, matching
`round_dp_with_strategy(9, ToZero)`.  `BTreeMap` is modelled as an association
list with at-most-one binding per key maintained by the operations, and
`BinaryHeap<Order>` as a list kept in priority order (best order first).
Types that live in the external `orderbook_primitives` / `polkadex_primitives`
crates (`Order`, its helpers, the fee config default) are modelled from the
spec, as marked on each definition.  The matching loop of `match_side` is
modelled with an explicit fuel parameter because the source `while` loop has no
structural termination measure.
-/

namespace MatchingEngine

/-- Truncation of a rational toward zero to an integer: `Int.tdiv` of the
numerator by the (positive) denominator. -/
def truncZ (x : ℚ) : ℤ := Int.tdiv x.num (x.den : ℤ)

/-- Modelled from the spec: `Order::rounding_off` of the external primitives
crate truncates toward zero at 9 fractional digits. -/
def round9 (x : ℚ) : ℚ := (truncZ (x * 1000000000) : ℚ) / 1000000000

/-- rust_decimal `checked_div` followed by `unwrap_or_else(Decimal::zero)`:
division that yields zero on a zero divisor. -/
def checkedDiv0 (a b : ℚ) : ℚ := if b = 0 then 0 else a / b

inductive OrderSide
  | Ask
  | Bid
deriving DecidableEq, Repr

inductive OrderType
  | LIMIT
  | MARKET
deriving DecidableEq, Repr

inductive OrderStatus
  | OPEN
  | CLOSED
deriving DecidableEq, Repr

/-- Trading pair: ordered pair of opaque asset ids, modelled as naturals. -/
structure TradingPair where
  base : ℕ
  quote : ℕ
deriving DecidableEq, Repr

/-- Modelled from the spec: per-pair constants of
`orderbook_primitives::ocex::TradingPairConfig`; the `min_volume()` accessor of
the source is the `min_volume` field. -/
structure TradingPairConfig where
  base_asset : ℕ
  quote_asset : ℕ
  min_volume : ℚ
  qty_step_size : ℚ
deriving DecidableEq, Repr

/-- Modelled from the spec: `orderbook_primitives::types::Order` (external to
this crate).  Account and asset ids are opaque, modelled as naturals;
`timestamp` carries the insertion-time priority used by the book ordering. -/
structure Order where
  id : ℕ
  main_account : ℕ
  pair : TradingPair
  side : OrderSide
  order_type : OrderType
  price : ℚ
  qty : ℚ
  quote_order_qty : ℚ
  filled_quantity : ℚ
  avg_filled_price : ℚ
  fee : ℚ
  status : OrderStatus
  stid : ℕ
  timestamp : ℕ
deriving DecidableEq, Repr

/-- Trade: maker and taker order snapshots, trade price and base amount. -/
structure Trade where
  maker : Order
  taker : Order
  price : ℚ
  amount : ℚ
deriving DecidableEq, Repr

/-- Modelled from the spec: `Trade::trade_id` is an opaque identifier derived
from the two order ids. -/
def Trade.trade_ident (t : Trade) : ℕ × ℕ := (t.maker.id, t.taker.id)

/-- Modelled from the spec (§4.2): `Order::available_volume`.  Ask orders
report remaining base quantity; Bid limit orders report remaining quantity
times the price (the reference price replaces the order price when supplied);
Bid market orders report the unspent quote budget. -/
def Order.available_volume (o : Order) (ref : Option ℚ) : ℚ :=
  match o.side with
  | OrderSide.Ask => o.qty - o.filled_quantity
  | OrderSide.Bid =>
    match o.order_type with
    | OrderType.MARKET => o.quote_order_qty - o.avg_filled_price * o.filled_quantity
    | OrderType.LIMIT => (o.qty - o.filled_quantity) * (ref.getD o.price)

/-- Modelled from the spec (§4.2): `Order::update_avg_price_and_filled_qty`,
a rounded weighted average over the total filled quantity. -/
def Order.update_avg_price_and_filled_qty (o : Order) (p q : ℚ) : Order :=
  { o with
    avg_filled_price :=
      round9 (checkedDiv0 (o.avg_filled_price * o.filled_quantity + p * q)
        (o.filled_quantity + q)),
    filled_quantity := round9 (o.filled_quantity + q) }

/-- Association-list model of `BTreeMap`: at most one binding per key. -/
abbrev BMap (K V : Type) : Type := List (K × V)

/-- Lookup of the first binding of a key. -/
def bmFind {K V : Type} [DecidableEq K] : BMap K V → K → Option V
  | [], _ => none
  | (k, v) :: rest, key => if k = key then some v else bmFind rest key

/-- Insert or replace (in place) the binding of a key. -/
def bmPut {K V : Type} [DecidableEq K] : BMap K V → K → V → BMap K V
  | [], key, v => [(key, v)]
  | (k, w) :: rest, key, v =>
    if k = key then (key, v) :: rest else (k, w) :: bmPut rest key v

/-- Remove every binding of a key. -/
def bmDel {K V : Type} [DecidableEq K] (m : BMap K V) (key : K) : BMap K V :=
  m.filter (fun kv => !(kv.1 = key : Bool))

theorem bmFind_bmPut_self {K V : Type} [DecidableEq K] (m : BMap K V) (k : K) (v : V) :
    bmFind (bmPut m k v) k = some v := by
  induction m with
  | nil => simp [bmPut, bmFind]
  | cons kv rest ih =>
    obtain ⟨a, b⟩ := kv
    by_cases h : a = k
    · simp [bmPut, bmFind, h]
    · simpa [bmPut, bmFind, h] using ih

theorem bmFind_bmPut_ne {K V : Type} [DecidableEq K] (m : BMap K V) (k k' : K) (v : V)
    (h : k' ≠ k) : bmFind (bmPut m k v) k' = bmFind m k' := by
  induction m with
  | nil => simp [bmPut, bmFind, Ne.symm h]
  | cons kv rest ih =>
    obtain ⟨a, b⟩ := kv
    by_cases hk : a = k
    · subst hk
      simp [bmPut, bmFind, Ne.symm h]
    · by_cases hk' : a = k'
      · subst hk'
        simp [bmPut, bmFind, hk, h]
      · simpa [bmPut, bmFind, hk, hk'] using ih

theorem bmFind_bmDel_self {K V : Type} [DecidableEq K] (m : BMap K V) (k : K) :
    bmFind (bmDel m k) k = none := by
  induction m with
  | nil => simp [bmDel, bmFind]
  | cons kv rest ih =>
    obtain ⟨a, b⟩ := kv
    by_cases h : a = k
    · simpa [bmDel, List.filter_cons, h] using ih
    · simpa [bmDel, List.filter_cons, bmFind, h] using ih

theorem bmFind_bmDel_ne {K V : Type} [DecidableEq K] (m : BMap K V) (k k' : K)
    (h : k' ≠ k) : bmFind (bmDel m k) k' = bmFind m k' := by
  induction m with
  | nil => simp [bmDel, bmFind]
  | cons kv rest ih =>
    obtain ⟨a, b⟩ := kv
    by_cases hk : a = k
    · subst hk
      simpa [bmDel, List.filter_cons, bmFind, Ne.symm h] using ih
    · by_cases hk' : a = k'
      · subst hk'
        simp [bmDel, List.filter_cons, bmFind, hk]
      · simpa [bmDel, List.filter_cons, bmFind, hk, hk'] using ih

/-- If a key looks up to a value, that binding is a member of the list. -/
theorem bmFind_mem {K V : Type} [DecidableEq K] (m : BMap K V) (k : K) (v : V)
    (h : bmFind m k = some v) : (k, v) ∈ m := by
  induction m with
  | nil => simp [bmFind] at h
  | cons kv rest ih =>
    obtain ⟨a, b⟩ := kv
    by_cases hk : a = k
    · subst hk
      simp only [bmFind, if_pos rfl] at h
      cases h
      exact List.mem_cons_self _ _
    · simp only [bmFind, if_neg hk] at h
      exact List.mem_cons_of_mem _ (ih h)

/-- Modelled from the spec (§4.4): strict heap priority between two orders of
one book side.  Bid books put the higher price first, ask books the lower
price; ties go to the earlier (smaller) timestamp. -/
def Order.beats (side : OrderSide) (a b : Order) : Bool :=
  match side with
  | OrderSide.Bid => decide (b.price < a.price) || (decide (a.price = b.price) && decide (a.timestamp < b.timestamp))
  | OrderSide.Ask => decide (a.price < b.price) || (decide (a.price = b.price) && decide (a.timestamp < b.timestamp))

/-- `BinaryHeap::push`, modelled as ordered insertion (best order first). -/
def bookPush (side : OrderSide) (o : Order) : List Order → List Order
  | [] => [o]
  | x :: rest => if Order.beats side o x then o :: x :: rest else x :: bookPush side o rest

theorem bookPush_perm (side : OrderSide) (o : Order) (l : List Order) :
    (bookPush side o l).Perm (o :: l) := by
  induction l with
  | nil => simp [bookPush]
  | cons x rest ih =>
    by_cases h : Order.beats side o x
    · simp [bookPush, h]
    · simp only [bookPush, h, Bool.false_eq_true, if_false]
      exact (ih.cons x).trans (List.Perm.swap o x rest)

theorem mem_bookPush {side : OrderSide} {o x : Order} {l : List Order} :
    x ∈ bookPush side o l ↔ x = o ∨ x ∈ l := by
  constructor
  · intro h
    have := (bookPush_perm side o l).mem_iff.mp h
    simpa using this
  · intro h
    exact (bookPush_perm side o l).mem_iff.mpr (by simpa using h)

/-- `BinaryHeap::append`: drain `other` into `book`. -/
def mergeBook (side : OrderSide) (book other : List Order) : List Order :=
  other.foldl (fun b o => bookPush side o b) book

theorem mergeBook_perm (side : OrderSide) (book other : List Order) :
    (mergeBook side book other).Perm (book ++ other) := by
  induction other generalizing book with
  | nil => simp [mergeBook]
  | cons o rest ih =>
    have h1 : (mergeBook side (bookPush side o book) rest).Perm (bookPush side o book ++ rest) :=
      ih (bookPush side o book)
    have h2 : (bookPush side o book ++ rest).Perm ((o :: book) ++ rest) :=
      (bookPush_perm side o book).append_right rest
    have h3 : ((o :: book) ++ rest).Perm (book ++ o :: rest) := by
      have hm : (book ++ o :: rest).Perm (o :: (book ++ rest)) := List.perm_middle
      simpa using hm.symm
    exact (h1.trans (h2.trans h3))

/-- `utils::calculate_assets_flows_from_trade`: receiving asset, received
amount, given-away asset, lost amount for one side of a settled trade. -/
def calculate_assets_flows_from_trade (price : ℚ) (side : OrderSide)
    (pair : TradingPair) (amount : ℚ) : ℕ × ℚ × ℕ × ℚ :=
  let quote_flow := round9 (price * amount)
  match side with
  | OrderSide.Ask => (pair.quote, quote_flow, pair.base, amount)
  | OrderSide.Bid => (pair.base, amount, pair.quote, quote_flow)

/-- `utils::check_unreserved_balance_for_close_limit_orders_in_trades`: locked
balance to release when a limit order is being closed by a trade. -/
def check_unreserved_balance_for_close_limit_orders_in_trades (order : Order)
    (min_volume : ℚ) : ℚ :=
  let amount :=
    if order.side = OrderSide.Ask then order.qty - order.filled_quantity
    else (order.qty - order.filled_quantity) * order.price
  if (order.order_type = OrderType.LIMIT ∧ amount ≠ 0)
      ∧ (order.status = OrderStatus.CLOSED ∨ order.available_volume none < min_volume) then
    amount
  else 0

/-- `utils::will_orders_match`: a market taker matches anything; an ask taker
matches when its price is at most the maker price, a bid taker when the maker
price is at most its own. -/
def will_orders_match (taker maker : Order) : Bool :=
  if taker.order_type = OrderType.MARKET then true
  else
    match taker.side with
    | OrderSide.Ask => decide (taker.price ≤ maker.price)
    | OrderSide.Bid => decide (maker.price ≤ taker.price)

/-- The `quantity_available` computation at the top of `utils::execute`:
a market bid with `qty == 0` derives base quantity from the remaining quote
budget, everyone else uses the remaining base quantity; `none` when the
quote-budget branch produces zero. -/
def executeQuantityAvailable (taker maker : Order) (qty_step_size : ℚ) : Option ℚ :=
  let price := maker.price
  if taker.side = OrderSide.Bid ∧ taker.order_type = OrderType.MARKET then
    if taker.qty ≠ 0 then some (taker.qty - taker.filled_quantity)
    else
      let available_qty :=
        round9 (checkedDiv0 (taker.available_volume (some maker.price)) price)
      let available_qty := round9 (checkedDiv0 available_qty qty_step_size * qty_step_size)
      if available_qty = 0 then none else some available_qty
  else some (round9 (round9 (taker.qty - taker.filled_quantity)))

/-- `utils::execute`: match two orders, returning the updated taker, updated
maker and the generated trade (the source mutates the two orders through
`&mut` references). -/
def execute (taker maker : Order) (qty_step_size : ℚ) : Option (Order × Order × Trade) :=
  let price := maker.price
  match executeQuantityAvailable taker maker qty_step_size with
  | none => none
  | some quantity_available =>
    let maker_available_qty := round9 (maker.qty - maker.filled_quantity)
    let (qa, taker1, maker1) :=
      if maker_available_qty ≤ quantity_available then
        (maker_available_qty,
         if maker_available_qty = quantity_available then
           { taker with status := OrderStatus.CLOSED }
         else taker,
         { maker with status := OrderStatus.CLOSED })
      else (quantity_available, taker, maker)
    let taker2 := taker1.update_avg_price_and_filled_qty price qa
    let maker2 := maker1.update_avg_price_and_filled_qty price qa
    some (taker2, maker2, ⟨maker2, taker2, price, qa⟩)

/-- `fees::AccountFee`. -/
structure AccountFee where
  maker_fraction : ℚ
  taker_fraction : ℚ
deriving DecidableEq, Repr

/-- `fees::FeeReceipt`. -/
structure FeeReceipt where
  user : ℕ
  trade_ident : ℕ × ℕ
  asset : ℕ
  amt : ℚ
  is_maker : Bool
deriving DecidableEq, Repr

/-- `fees::FeeCollector`.  The `default_fee` field is modelled from the spec:
the global default maker/taker pair (`FeeConfig::default()` of the external
primitives crate), carried as data. -/
structure FeeCollector where
  pot : ℕ
  fee_structure : BMap ℕ AccountFee
  default_fee : AccountFee
deriving DecidableEq, Repr

/-- `FeeCollector::settle_trade_fees`: charge the account's maker or taker
fraction on the received amount and return the receipt together with the
reduced received amount (the source mutates `recv_amt` through `&mut`). -/
def FeeCollector.settle_trade_fees (fc : FeeCollector) (main : ℕ) (tid : ℕ × ℕ)
    (is_maker : Bool) (recv_amt : ℚ) (recv_asset : ℕ) : FeeReceipt × ℚ :=
  let fee_structure := (bmFind fc.fee_structure main).getD fc.default_fee
  let fee_fraction := if is_maker then fee_structure.maker_fraction
    else fee_structure.taker_fraction
  let fees := round9 (recv_amt * fee_fraction)
  let recv_amt2 := round9 (recv_amt - fees)
  (⟨main, tid, recv_asset, fees, is_maker⟩, recv_amt2)

/-- Price-level aggregate map: (pair, side, price) to amount. -/
abbrev PriceLevels := BMap (TradingPair × OrderSide × ℚ) ℚ

/-- `OrderExecutionResult`: the delta produced by one `process_order` call. -/
structure OrderExecutionResult where
  balances : BMap (ℕ × ℕ) (ℚ × ℚ)
  pricelevels : PriceLevels
  modified_orders : BMap ℕ Order
  trades : List Trade
  stid : ℕ
deriving DecidableEq, Repr

/-- `OrderExecutionResult::new`. -/
def OrderExecutionResult.freshResult (stid : ℕ) : OrderExecutionResult :=
  { balances := [], pricelevels := [], modified_orders := [], trades := [], stid := stid }

/-- Engine error kinds: `Error::TradingPairConfigNotFound`, the anyhow message
of `reserve_balances`, and the anyhow message of `insert_order`. -/
inductive EngineError
  | tradingPairConfigNotFound
  | reserveFailed
  | orderBookNotOpened
deriving DecidableEq, Repr

/-- The engine state (`Orderbook`). -/
structure Orderbook where
  trading_pairs : BMap TradingPair TradingPairConfig
  pricelevels : PriceLevels
  bid_books : BMap TradingPair (List Order)
  ask_books : BMap TradingPair (List Order)
  balances : BMap (ℕ × ℕ) (ℚ × ℚ)
  fees_collector : FeeCollector
deriving DecidableEq, Repr

/-- `Orderbook::get_pair_config`. -/
def Orderbook.get_pair_config (ob : Orderbook) (pair : TradingPair) :
    Option TradingPairConfig :=
  bmFind ob.trading_pairs pair

/-- `Orderbook::will_match`: market orders always may match; a limit order may
match when the best opposite resting order crosses its price. -/
def Orderbook.will_match (ob : Orderbook) (order : Order) : Bool :=
  if order.order_type = OrderType.MARKET then true
  else
    let book := match order.side with
      | OrderSide.Ask => bmFind ob.bid_books order.pair
      | OrderSide.Bid => bmFind ob.ask_books order.pair
    match book with
    | some (open_order :: _) =>
      match order.side with
      | OrderSide.Ask => decide (order.price ≤ open_order.price)
      | OrderSide.Bid => decide (order.price ≥ open_order.price)
    | _ => false

/-- `Orderbook::insert_order`: push the order into its side's book; error when
the pair has no book. -/
def Orderbook.insert_order (ob : Orderbook) (order : Order) :
    Except EngineError Orderbook :=
  match order.side with
  | OrderSide.Ask =>
    match bmFind ob.ask_books order.pair with
    | some book => Except.ok { ob with
        ask_books := bmPut ob.ask_books order.pair (bookPush OrderSide.Ask order book) }
    | none => Except.error EngineError.orderBookNotOpened
  | OrderSide.Bid =>
    match bmFind ob.bid_books order.pair with
    | some book => Except.ok { ob with
        bid_books := bmPut ob.bid_books order.pair (bookPush OrderSide.Bid order book) }
    | none => Except.error EngineError.orderBookNotOpened

/-- `Orderbook::add_to_pricelevel`: bump the aggregate at (pair, side, price)
by `qty` (clamped at zero when the entry existed; `or_insert(qty)` when it did
not), prune the level when its notional is below `min_volume`, and always
record the resulting aggregate in the delta's price levels. -/
def Orderbook.add_to_pricelevel (ob : Orderbook) (config : TradingPairConfig)
    (pair : TradingPair) (price qty : ℚ) (side : OrderSide)
    (pricelevel_changes : PriceLevels) : Orderbook × PriceLevels :=
  let key := (pair, side, price)
  let q0 := match bmFind ob.pricelevels key with
    | some c => max (c + qty) 0
    | none => qty
  let m1 := bmPut ob.pricelevels key q0
  let vol := price * q0
  let q := if vol < config.min_volume then 0 else q0
  let m2 := if q = 0 then bmDel m1 key else m1
  ({ ob with pricelevels := m2 }, bmPut pricelevel_changes key q)

/-- `Orderbook::reduce_from_pricelevel`: like `add_to_pricelevel` but the
existing aggregate is reduced by `qty` (clamped at zero); an absent entry is
still initialised to `qty` by `or_insert`. -/
def Orderbook.reduce_from_pricelevel (ob : Orderbook) (config : TradingPairConfig)
    (pair : TradingPair) (price qty : ℚ) (side : OrderSide)
    (pricelevel_changes : PriceLevels) : Orderbook × PriceLevels :=
  let key := (pair, side, price)
  let q0 := match bmFind ob.pricelevels key with
    | some c => max (c - qty) 0
    | none => qty
  let m1 := bmPut ob.pricelevels key q0
  let vol := price * q0
  let q := if vol < config.min_volume then 0 else q0
  let m2 := if q = 0 then bmDel m1 key else m1
  ({ ob with pricelevels := m2 }, bmPut pricelevel_changes key q)

/-- The pop-and-push-back loop of
`Orderbook::update_in_memory_order_state_with_fee`: pop resting orders into
`acc` until the order id is found (patching its fee), then merge the popped
orders back. -/
def patchFeeLoop (side : OrderSide) (oid : ℕ) (fee : ℚ) :
    List Order → List Order → List Order
  | [], acc => mergeBook side [] acc
  | x :: rest, acc =>
    if x.id = oid then mergeBook side rest (bookPush side { x with fee := fee } acc)
    else patchFeeLoop side oid fee rest (bookPush side x acc)

/-- `Orderbook::update_in_memory_order_state_with_fee`. -/
def Orderbook.update_in_memory_order_state_with_fee (ob : Orderbook)
    (order : Order) : Orderbook :=
  match order.side with
  | OrderSide.Ask =>
    match bmFind ob.ask_books order.pair with
    | none => ob
    | some book =>
      let book2 := patchFeeLoop OrderSide.Ask order.id order.fee book []
      { ob with ask_books := bmPut ob.ask_books order.pair book2 }
  | OrderSide.Bid =>
    match bmFind ob.bid_books order.pair with
    | none => ob
    | some book =>
      let book2 := patchFeeLoop OrderSide.Bid order.id order.fee book []
      { ob with bid_books := bmPut ob.bid_books order.pair book2 }

/-- `Orderbook::settle_order_updates`: insert the processed order when still
open, record it in the delta, and record all maker snapshots stamped with the
delta's stid. -/
def Orderbook.settle_order_updates (ob : Orderbook) (order : Order)
    (changes : OrderExecutionResult) :
    Except EngineError (Orderbook × OrderExecutionResult) :=
  match (if order.status = OrderStatus.OPEN then ob.insert_order order
         else Except.ok ob) with
  | Except.error e => Except.error e
  | Except.ok ob1 =>
    let mods0 := bmPut changes.modified_orders order.id order
    let mods := changes.trades.foldl
      (fun m t => bmPut m t.maker.id { t.maker with stid := changes.stid }) mods0
    Except.ok (ob1, { changes with modified_orders := mods })

/-- One step of the trade loop of `settle_price_level_updates`. -/
def priceLevelReduceStep (config : TradingPairConfig)
    (acc : Orderbook × PriceLevels) (t : Trade) : Orderbook × PriceLevels :=
  acc.1.reduce_from_pricelevel config t.maker.pair t.price t.amount t.maker.side acc.2

/-- `Orderbook::settle_price_level_updates`: add the open residual of the
processed order to its level, then reduce the maker-side level of every
generated trade. -/
def Orderbook.settle_price_level_updates (ob : Orderbook)
    (config : TradingPairConfig) (order : Order)
    (changes : OrderExecutionResult) : Orderbook × OrderExecutionResult :=
  let step1 :=
    if order.status = OrderStatus.OPEN then
      ob.add_to_pricelevel config order.pair order.price
        (max (order.qty - order.filled_quantity) 0) order.side changes.pricelevels
    else (ob, changes.pricelevels)
  let step2 := changes.trades.foldl (priceLevelReduceStep config) step1
  (step2.1, { changes with pricelevels := step2.2 })

/-- The body of the `for order in [maker, taker]` loop of
`Orderbook::settle_trades`: asset flows, dust unreservation, fee collection,
pot credit, give-away debit and receive credit for one side of one trade.
Returns the engine, the delta, the fee-patched order snapshot and the fee
receipt (the source drops the receipt after using it; it is returned here as
an observation). -/
def Orderbook.settle_trade_side (ob : Orderbook) (changes : OrderExecutionResult)
    (min_volume : ℚ) (maker_main : ℕ) (tid : ℕ × ℕ) (price amount : ℚ)
    (order : Order) : Orderbook × OrderExecutionResult × Order × FeeReceipt :=
  let flows := calculate_assets_flows_from_trade price order.side order.pair amount
  let receiving_asset := flows.1
  let recv_amt := flows.2.1
  let give_away_asset := flows.2.2.1
  let lost_amt := flows.2.2.2
  let un_reserve_balance :=
    check_unreserved_balance_for_close_limit_orders_in_trades order min_volume
  let is_maker := decide (order.main_account = maker_main)
  let fee_out := ob.fees_collector.settle_trade_fees order.main_account tid
    is_maker recv_amt receiving_asset
  let receipt := fee_out.1
  let recv_amt2 := fee_out.2
  let order2 := { order with fee := round9 (order.fee + receipt.amt) }
  let mods := match bmFind changes.modified_orders order2.id with
    | some o => bmPut changes.modified_orders order2.id { o with fee := order2.fee }
    | none => changes.modified_orders
  let changes1 := { changes with modified_orders := mods }
  let ob1 := ob.update_in_memory_order_state_with_fee order2
  let potKey := (ob1.fees_collector.pot, receipt.asset)
  let potState := match bmFind ob1.balances potKey with
    | some fr => (round9 (fr.1 + receipt.amt), fr.2)
    | none => (receipt.amt, 0)
  let ob2 := { ob1 with balances := bmPut ob1.balances potKey potState }
  let changes2 := { changes1 with balances := bmPut changes1.balances potKey potState }
  let gKey := (order2.main_account, give_away_asset)
  let gState := match bmFind ob2.balances gKey with
    | some fr => (round9 (fr.1 + un_reserve_balance),
                  fr.2 - (lost_amt + un_reserve_balance))
    | none => ((0 : ℚ), (0 : ℚ))
  let ob3 := { ob2 with balances := bmPut ob2.balances gKey gState }
  let changes3 := { changes2 with balances := bmPut changes2.balances gKey gState }
  let rKey := (order2.main_account, receiving_asset)
  let rState := match bmFind ob3.balances rKey with
    | some fr => (round9 (fr.1 + recv_amt2), fr.2)
    | none => (recv_amt2, (0 : ℚ))
  let ob4 := { ob3 with balances := bmPut ob3.balances rKey rState }
  let changes4 := { changes3 with balances := bmPut changes3.balances rKey rState }
  (ob4, changes4, order2, receipt)

/-- The bid-taker overpay refund at the top of the trade loop of
`Orderbook::settle_trades`: when the trade price is below a bid taker's limit
price, the difference times the amount moves from the taker's reserved quote
(clamped at zero) back to free. -/
def bidRefundStep (ob : Orderbook) (changes : OrderExecutionResult)
    (trade : Trade) : Orderbook × OrderExecutionResult :=
  match trade.taker.side with
  | OrderSide.Ask => (ob, changes)
  | OrderSide.Bid =>
    if trade.price < trade.taker.price then
      let diff := trade.taker.price - trade.price
      let to_unreserve := diff * trade.amount
      let key := (trade.taker.main_account, trade.taker.pair.quote)
      let st := match bmFind ob.balances key with
        | some fr => (round9 (fr.1 + to_unreserve), max (fr.2 - to_unreserve) 0)
        | none => ((0 : ℚ), (0 : ℚ))
      ({ ob with balances := bmPut ob.balances key st },
       { changes with balances := bmPut changes.balances key st })
    else (ob, changes)

/-- One iteration of the trade loop of `Orderbook::settle_trades`: the
bid-taker overpay refund followed by settlement of the maker and then the
taker side.  Returns the mutated trade (its snapshots carry updated fees) and
the two fee receipts as observations. -/
def Orderbook.settle_one_trade (ob : Orderbook) (cfg : TradingPairConfig)
    (changes : OrderExecutionResult) (trade : Trade) :
    Orderbook × OrderExecutionResult × Trade × (FeeReceipt × FeeReceipt) :=
  let tid := trade.trade_ident
  let price := trade.price
  let amount := trade.amount
  let refunded := bidRefundStep ob changes trade
  let ob0 := refunded.1
  let changes0 := refunded.2
  let maker_main := trade.maker.main_account
  let stepM := ob0.settle_trade_side changes0 cfg.min_volume maker_main tid
    price amount trade.maker
  let stepT := stepM.1.settle_trade_side stepM.2.1 cfg.min_volume maker_main tid
    price amount trade.taker
  (stepT.1, stepT.2.1,
   { trade with maker := stepM.2.2.1, taker := stepT.2.2.1 },
   (stepM.2.2.2, stepT.2.2.2))

/-- One step of the trade loop of `settle_trades`. -/
def settleTradesStep (cfg : TradingPairConfig)
    (acc : Orderbook × OrderExecutionResult × List Trade) (t : Trade) :
    Orderbook × OrderExecutionResult × List Trade :=
  let s := acc.1.settle_one_trade cfg acc.2.1 t
  (s.1, s.2.1, acc.2.2 ++ [s.2.2.1])

/-- `Orderbook::settle_trades`: settle every generated trade in emission
order; the delta's trade list is replaced by the mutated snapshots. -/
def Orderbook.settle_trades (ob : Orderbook) (cfg : TradingPairConfig)
    (changes : OrderExecutionResult) : Orderbook × OrderExecutionResult :=
  let folded := changes.trades.foldl (settleTradesStep cfg) (ob, changes, [])
  (folded.1, { folded.2.1 with trades := folded.2.2 })

/-- The asset/amount selection at the top of `Orderbook::reserve_balances`. -/
def reserveAssetAmount (order : Order) : ℕ × ℚ :=
  match order.side, order.order_type with
  | OrderSide.Bid, OrderType.LIMIT => (order.pair.quote, order.available_volume none)
  | OrderSide.Ask, OrderType.LIMIT => (order.pair.base, order.qty - order.filled_quantity)
  | OrderSide.Ask, OrderType.MARKET => (order.pair.base, order.qty - order.filled_quantity)
  | OrderSide.Bid, OrderType.MARKET =>
    if order.quote_order_qty = 0 then (order.pair.base, order.qty - order.filled_quantity)
    else (order.pair.quote, order.quote_order_qty)

/-- `Orderbook::reserve_balances`: move the order's required amount from free
to reserved; error (after a possible `or_insert` of a zero entry) when the
account's free balance is insufficient. -/
def Orderbook.reserve_balances (ob : Orderbook) (order : Order)
    (changes : OrderExecutionResult) :
    Orderbook × Except EngineError OrderExecutionResult :=
  let asset := (reserveAssetAmount order).1
  let amount := round9 (reserveAssetAmount order).2
  let key := (order.main_account, asset)
  match bmFind ob.balances key with
  | none =>
    ({ ob with balances := bmPut ob.balances key (0, 0) },
     Except.error EngineError.reserveFailed)
  | some fr =>
    if amount ≤ fr.1 then
      let st := (fr.1 - amount, fr.2 + amount)
      ({ ob with balances := bmPut ob.balances key st },
       Except.ok { changes with balances := bmPut changes.balances key st })
    else (ob, Except.error EngineError.reserveFailed)

/-- `Orderbook::unreserve_balance`: move `amount` from reserved (clamped at
zero) back to free. -/
def Orderbook.unreserve_balance (ob : Orderbook) (amount : ℚ) (asset : ℕ)
    (main : ℕ) (changes : OrderExecutionResult) :
    Orderbook × OrderExecutionResult :=
  let key := (main, asset)
  let st := match bmFind ob.balances key with
    | some fr => (round9 (fr.1 + amount), max (fr.2 - amount) 0)
    | none => ((0 : ℚ), (0 : ℚ))
  ({ ob with balances := bmPut ob.balances key st },
   { changes with balances := bmPut changes.balances key st })

/-- `Orderbook::free_reserve_balance_of_market_order`: release the unspent
reservation of a market order. -/
def Orderbook.free_reserve_balance_of_market_order (ob : Orderbook)
    (order : Order) (changes : OrderExecutionResult) :
    Orderbook × OrderExecutionResult :=
  if order.order_type = OrderType.MARKET then
    let ua :=
      match order.side with
      | OrderSide.Ask => (order.qty - order.filled_quantity, order.pair.base)
      | OrderSide.Bid =>
        (order.quote_order_qty - order.avg_filled_price * order.filled_quantity,
         order.pair.quote)
    if ua.1 ≠ 0 then ob.unreserve_balance ua.1 ua.2 order.main_account changes
    else (ob, changes)
  else (ob, changes)

/-- The `while` loop of `Orderbook::match_side`, with explicit fuel (the
source loop has no structural termination measure).  `bside` is the side of
the opposite book being consumed. -/
def matchSideLoop (cfg : TradingPairConfig) (bside : OrderSide) :
    ℕ → Order → List Order → List Trade → Order × List Order × List Trade
  | 0, taker, book, acc => (taker, book, acc)
  | fuel + 1, taker, book, acc =>
    match book with
    | [] => (taker, [], acc)
    | other :: rest =>
      if taker.available_volume (some other.price) < cfg.min_volume then
        ({ taker with status := OrderStatus.CLOSED }, bookPush bside other rest, acc)
      else if will_orders_match taker other then
        match execute taker other cfg.qty_step_size with
        | none => (taker, bookPush bside other rest, acc)
        | some exec =>
          let taker1 := exec.1
          let other1 := exec.2.1
          let tr0 := exec.2.2
          let tr :=
            if tr0.maker.available_volume (some other1.price) < cfg.min_volume then
              { tr0 with maker := { tr0.maker with status := OrderStatus.CLOSED } }
            else tr0
          let book1 :=
            if ¬ other1.available_volume none < cfg.min_volume then
              bookPush bside other1 rest
            else rest
          matchSideLoop cfg bside fuel taker1 book1 (acc ++ [tr])
      else (taker, bookPush bside other rest, acc)

/-- `Orderbook::match_side`: run the matching loop against the opposite book
and append the generated trades. -/
def Orderbook.match_side (ob : Orderbook) (taker : Order)
    (trade_changes : List Trade) (cfg : TradingPairConfig) (fuel : ℕ) :
    Orderbook × Order × List Trade :=
  match taker.side with
  | OrderSide.Ask =>
    match bmFind ob.bid_books taker.pair with
    | none => (ob, taker, trade_changes)
    | some book =>
      let r := matchSideLoop cfg OrderSide.Bid fuel taker book []
      ({ ob with bid_books := bmPut ob.bid_books taker.pair r.2.1 },
       r.1, trade_changes ++ r.2.2)
  | OrderSide.Bid =>
    match bmFind ob.ask_books taker.pair with
    | none => (ob, taker, trade_changes)
    | some book =>
      let r := matchSideLoop cfg OrderSide.Ask fuel taker book []
      ({ ob with ask_books := bmPut ob.ask_books taker.pair r.2.1 },
       r.1, trade_changes ++ r.2.2)

/-- `Orderbook::change_status_of_order_in_trade`: close the taker snapshot of
the last generated trade. -/
def change_status_of_order_in_trade : List Trade → List Trade
  | [] => []
  | [t] => [{ t with taker := { t.taker with status := OrderStatus.CLOSED } }]
  | t :: rest => t :: change_status_of_order_in_trade rest

/-- `Orderbook::match_limit`: match against the book, then close the taker if
its remaining volume is below the market minimum. -/
def Orderbook.match_limit (ob : Orderbook) (taker : Order)
    (trade_changes : List Trade) (cfg : TradingPairConfig) (fuel : ℕ) :
    Orderbook × Order × List Trade :=
  let r := ob.match_side taker trade_changes cfg fuel
  if (r.2.1).available_volume none < cfg.min_volume then
    (r.1, { r.2.1 with status := OrderStatus.CLOSED }, r.2.2)
  else r

/-- `Orderbook::match_market`: match against the book, always close the taker
and close the taker snapshot of the last trade. -/
def Orderbook.match_market (ob : Orderbook) (taker : Order)
    (trade_changes : List Trade) (cfg : TradingPairConfig) (fuel : ℕ) :
    Orderbook × Order × List Trade :=
  let r := ob.match_side taker trade_changes cfg fuel
  (r.1, { r.2.1 with status := OrderStatus.CLOSED },
   change_status_of_order_in_trade r.2.2)

/-- `Orderbook::match_order`: dispatch on the order type. -/
def Orderbook.match_order (ob : Orderbook) (cfg : TradingPairConfig)
    (taker : Order) (trade_changes : List Trade) (fuel : ℕ) :
    Orderbook × Order × List Trade :=
  match taker.order_type with
  | OrderType.LIMIT => ob.match_limit taker trade_changes cfg fuel
  | OrderType.MARKET => ob.match_market taker trade_changes cfg fuel

/-- `Orderbook::process_order`: the full pipeline — pair config lookup,
balance reservation, matching, order updates, price-level updates, trade
settlement and market-order unreservation.  The engine state is threaded
explicitly; `fuel` bounds the matching loop. -/
def Orderbook.process_order (ob : Orderbook) (order : Order) (stid fuel : ℕ) :
    Orderbook × Except EngineError OrderExecutionResult :=
  match bmFind ob.trading_pairs order.pair with
  | none => (ob, Except.error EngineError.tradingPairConfigNotFound)
  | some config =>
    let changes0 := OrderExecutionResult.freshResult stid
    match ob.reserve_balances order changes0 with
    | (ob1, Except.error e) => (ob1, Except.error e)
    | (ob1, Except.ok changes1) =>
      let matched :=
        if ob1.will_match order then ob1.match_order config order changes1.trades fuel
        else (ob1, order, changes1.trades)
      let ob2 := matched.1
      let order2 := matched.2.1
      let changes2 := { changes1 with trades := matched.2.2 }
      match ob2.settle_order_updates order2 changes2 with
      | Except.error e => (ob2, Except.error e)
      | Except.ok step3 =>
        let step4 := step3.1.settle_price_level_updates config order2 step3.2
        let step5 := step4.1.settle_trades config step4.2
        let step6 := step5.1.free_reserve_balance_of_market_order order2 step5.2
        (step6.1, Except.ok step6.2)

/-! ## Claim C4: price-level update semantics -/

/-- Lookup across an insert, as a single conditional equation. -/
theorem bmFind_bmPut_cases {K V : Type} [DecidableEq K] (m : BMap K V)
    (key k : K) (v : V) :
    bmFind (bmPut m key v) k = if k = key then some v else bmFind m k := by
  by_cases hk : k = key
  · subst hk
    simp [bmFind_bmPut_self]
  · simp [hk, bmFind_bmPut_ne m key k v hk]

/-- Lookup across the store-then-prune step shared by `add_to_pricelevel` and
`reduce_from_pricelevel`: the entry is written with the raw aggregate `q0` and
removed again when the pruned aggregate `if cond then 0 else q0` is zero. -/
theorem bmFind_pruneStore (m : PriceLevels) (key k : TradingPair × OrderSide × ℚ)
    (q0 : ℚ) (cond : Prop) [Decidable cond] :
    bmFind (if (if cond then (0 : ℚ) else q0) = 0 then bmDel (bmPut m key q0) key
            else bmPut m key q0) k
      = if k = key then
          (if (if cond then (0 : ℚ) else q0) = 0 then none
           else some (if cond then (0 : ℚ) else q0))
        else bmFind m k := by
  by_cases hq : (if cond then (0 : ℚ) else q0) = 0
  · simp only [hq, if_pos rfl]
    by_cases hk : k = key
    · subst hk
      simp [bmFind_bmDel_self]
    · simp [hk, (bmFind_bmDel_ne _ key k hk).trans (bmFind_bmPut_ne m key k q0 hk)]
  · have hq0 : (if cond then (0 : ℚ) else q0) = q0 := by
      by_cases hc : cond
      · exact absurd (by simp [hc]) hq
      · simp [hc]
    have hq0' : q0 ≠ 0 := hq0 ▸ hq
    simp only [hq, if_neg, hq0, hq0']
    by_cases hk : k = key
    · subst hk
      simp [hq0', bmFind_bmPut_self]
    · simp [hk, hq0', bmFind_bmPut_ne m key k q0 hk]

/-- A minimal engine used as a concrete counterexample input. -/
def c4ob : Orderbook :=
  { trading_pairs := [], pricelevels := [], bid_books := [], ask_books := [],
    balances := [],
    fees_collector := { pot := 0, fee_structure := [], default_fee := ⟨0, 0⟩ } }

/-- Config with `min_volume = 1` used by the C4 counterexample. -/
def c4cfg : TradingPairConfig :=
  { base_asset := 1, quote_asset := 2, min_volume := 1, qty_step_size := 1 }

/-- C4, counterexample: `reduce_from_pricelevel` on an *absent* entry stores
and records the delta itself (`or_insert(qty)`), not the claimed
`max(0 - delta, 0) = 0` (which, being zero, would have removed the entry and
recorded zero). -/
theorem c4_counterexample :
    (bmFind (c4ob.reduce_from_pricelevel c4cfg ⟨1, 2⟩ 1 5 OrderSide.Ask []).1.pricelevels
        (⟨1, 2⟩, OrderSide.Ask, 1) = some 5
     ∧ bmFind (c4ob.reduce_from_pricelevel c4cfg ⟨1, 2⟩ 1 5 OrderSide.Ask []).2
        (⟨1, 2⟩, OrderSide.Ask, 1) = some 5)
    ∧ (5 : ℚ) ≠ max (0 - 5) 0 := by
  constructor
  · constructor
    · decide!
    · decide!
  · decide!

/-- C4, amended: for both `add_to_pricelevel` and `reduce_from_pricelevel`
with arguments (pair, side, price, delta): when the entry exists the new
aggregate is the saturating add (resp. subtract) of the current aggregate and
the delta clamped at zero, but when the entry is absent the new aggregate is
the delta itself (`or_insert(delta)`); it is then zeroed when
`price × q < min_volume`; a zero aggregate removes the entry, a nonzero one
is stored; and `(pair, side, price) → q` (possibly zero) is always recorded in
the delta's price levels.  Every other engine component, price-level entry and
recorded level is untouched. -/
theorem c4_pricelevel_semantics (ob : Orderbook) (config : TradingPairConfig)
    (pair : TradingPair) (price qty : ℚ) (side : OrderSide) (plc : PriceLevels)
    (k : TradingPair × OrderSide × ℚ) :
    (let key := (pair, side, price)
     let q0 := match bmFind ob.pricelevels key with
       | some c => max (c + qty) 0
       | none => qty
     let q := if price * q0 < config.min_volume then 0 else q0
     let r := ob.add_to_pricelevel config pair price qty side plc
     (bmFind r.1.pricelevels k =
        if k = key then (if q = 0 then none else some q) else bmFind ob.pricelevels k)
     ∧ (bmFind r.2 k = if k = key then some q else bmFind plc k)
     ∧ r.1.bid_books = ob.bid_books ∧ r.1.ask_books = ob.ask_books
     ∧ r.1.balances = ob.balances ∧ r.1.trading_pairs = ob.trading_pairs
     ∧ r.1.fees_collector = ob.fees_collector)
    ∧ (let key := (pair, side, price)
       let q0 := match bmFind ob.pricelevels key with
         | some c => max (c - qty) 0
         | none => qty
       let q := if price * q0 < config.min_volume then 0 else q0
       let r := ob.reduce_from_pricelevel config pair price qty side plc
       (bmFind r.1.pricelevels k =
          if k = key then (if q = 0 then none else some q) else bmFind ob.pricelevels k)
       ∧ (bmFind r.2 k = if k = key then some q else bmFind plc k)
       ∧ r.1.bid_books = ob.bid_books ∧ r.1.ask_books = ob.ask_books
       ∧ r.1.balances = ob.balances ∧ r.1.trading_pairs = ob.trading_pairs
       ∧ r.1.fees_collector = ob.fees_collector) := by
  refine ⟨⟨?_, ?_, rfl, rfl, rfl, rfl, rfl⟩, ⟨?_, ?_, rfl, rfl, rfl, rfl, rfl⟩⟩
  · exact bmFind_pruneStore ob.pricelevels (pair, side, price) k _ _
  · exact bmFind_bmPut_cases plc (pair, side, price) k _
  · exact bmFind_pruneStore ob.pricelevels (pair, side, price) k _ _
  · exact bmFind_bmPut_cases plc (pair, side, price) k _

/-! ## Claim C5: match_side stop conditions -/

/-- C5: in every iteration of the `match_side` loop, after popping the best
opposite order `other`: if the taker's available volume at `other.price` is
below `min_volume` the taker is closed, `other` is pushed back unchanged and
the loop stops; otherwise if `will_orders_match taker other` is false `other`
is pushed back unchanged and the loop stops; `will_orders_match` holds exactly
for market takers, ask takers with `taker.price ≤ other.price` and bid takers
with `other.price ≤ taker.price`; and pushing `other` back restores the book
to a permutation of the popped state. -/
theorem c5_match_side_stop_conditions (cfg : TradingPairConfig)
    (bside : OrderSide) (fuel : ℕ) (taker other : Order) (rest : List Order)
    (acc : List Trade) :
    (taker.available_volume (some other.price) < cfg.min_volume →
       matchSideLoop cfg bside (fuel + 1) taker (other :: rest) acc
         = ({ taker with status := OrderStatus.CLOSED }, bookPush bside other rest, acc))
    ∧ (¬ taker.available_volume (some other.price) < cfg.min_volume →
       will_orders_match taker other = false →
       matchSideLoop cfg bside (fuel + 1) taker (other :: rest) acc
         = (taker, bookPush bside other rest, acc))
    ∧ (will_orders_match taker other = true ↔
        (taker.order_type = OrderType.MARKET
         ∨ (taker.side = OrderSide.Ask ∧ taker.price ≤ other.price)
         ∨ (taker.side = OrderSide.Bid ∧ other.price ≤ taker.price)))
    ∧ (bookPush bside other rest).Perm (other :: rest) := by
  refine ⟨?_, ?_, ?_, bookPush_perm bside other rest⟩
  · intro h
    simp only [matchSideLoop]
    rw [if_pos h]
  · intro h1 h2
    simp only [matchSideLoop]
    rw [if_neg h1, h2]
    simp
  · rw [will_orders_match]
    by_cases hm : taker.order_type = OrderType.MARKET
    · simp [hm]
    · cases hs : taker.side
      · simp [hm, hs]
      · simp [hm, hs]

def c5cfg : TradingPairConfig :=
  { base_asset := 1, quote_asset := 2, min_volume := 1, qty_step_size := 1 }

def c5taker : Order :=
  { id := 1, main_account := 1, pair := ⟨1, 2⟩, side := OrderSide.Bid,
    order_type := OrderType.LIMIT, price := 1, qty := 0, quote_order_qty := 0,
    filled_quantity := 0, avg_filled_price := 0, fee := 0,
    status := OrderStatus.OPEN, stid := 0, timestamp := 1 }

def c5other : Order :=
  { id := 2, main_account := 2, pair := ⟨1, 2⟩, side := OrderSide.Ask,
    order_type := OrderType.LIMIT, price := 1, qty := 10, quote_order_qty := 0,
    filled_quantity := 0, avg_filled_price := 0, fee := 0,
    status := OrderStatus.OPEN, stid := 0, timestamp := 0 }

/-- Witness for C5 at a concrete input: the taker's available volume is below
the market minimum, so the iteration closes the taker, restores the book and
generates nothing. -/
theorem c5_witness :
    (c5taker.available_volume (some c5other.price) < c5cfg.min_volume)
    ∧ matchSideLoop c5cfg OrderSide.Ask (0 + 1) c5taker [c5other] []
        = ({ c5taker with status := OrderStatus.CLOSED },
           bookPush OrderSide.Ask c5other [], []) :=
  ⟨by decide!,
   (c5_match_side_stop_conditions c5cfg OrderSide.Ask 0 c5taker c5other [] []).1
     (by decide!)⟩

/-! ## Claim C6: execute when the maker side is the smaller -/

/-- C6: in `execute`, whenever the maker's available quantity is at most the
taker's `quantity_available`: the taker is closed exactly when they are equal,
`quantity_available` becomes the maker's available quantity and the maker is
closed; both orders' average price and filled quantity are then updated with
the maker price and that quantity, and the returned trade carries the two
updated snapshots, the maker price and that quantity. -/
theorem c6_execute_maker_smaller (taker maker : Order) (step q0 : ℚ)
    (hq : executeQuantityAvailable taker maker step = some q0)
    (hle : round9 (maker.qty - maker.filled_quantity) ≤ q0) :
    execute taker maker step =
      (let ma := round9 (maker.qty - maker.filled_quantity)
       let t1 := if ma = q0 then { taker with status := OrderStatus.CLOSED } else taker
       let t2 := t1.update_avg_price_and_filled_qty maker.price ma
       let m2 := ({ maker with
           status := OrderStatus.CLOSED }).update_avg_price_and_filled_qty maker.price ma
       some (t2, m2, ⟨m2, t2, maker.price, ma⟩)) := by
  simp only [execute, hq]
  rw [if_pos hle]

def c6taker : Order :=
  { id := 1, main_account := 1, pair := ⟨1, 2⟩, side := OrderSide.Bid,
    order_type := OrderType.LIMIT, price := 2, qty := 10, quote_order_qty := 0,
    filled_quantity := 0, avg_filled_price := 0, fee := 0,
    status := OrderStatus.OPEN, stid := 0, timestamp := 1 }

def c6maker : Order :=
  { id := 2, main_account := 2, pair := ⟨1, 2⟩, side := OrderSide.Ask,
    order_type := OrderType.LIMIT, price := 2, qty := 5, quote_order_qty := 0,
    filled_quantity := 0, avg_filled_price := 0, fee := 0,
    status := OrderStatus.OPEN, stid := 0, timestamp := 0 }

/-- Witness for C6 at a concrete input: a maker with 5 remaining against a
taker wanting 10 closes the maker and trades exactly 5 at the maker price. -/
theorem c6_witness :
    executeQuantityAvailable c6taker c6maker 1 = some 10
    ∧ round9 (c6maker.qty - c6maker.filled_quantity) ≤ 10
    ∧ execute c6taker c6maker 1 =
      (let ma := round9 (c6maker.qty - c6maker.filled_quantity)
       let t1 := if ma = 10 then { c6taker with status := OrderStatus.CLOSED } else c6taker
       let t2 := t1.update_avg_price_and_filled_qty c6maker.price ma
       let m2 := ({ c6maker with
           status := OrderStatus.CLOSED }).update_avg_price_and_filled_qty c6maker.price ma
       some (t2, m2, ⟨m2, t2, c6maker.price, ma⟩)) :=
  ⟨by decide!, by decide!,
   c6_execute_maker_smaller c6taker c6maker 1 10 (by decide!) (by decide!)⟩

/-! ## Claim C7: every trade's price is the maker's price -/

theorem update_avg_price_eq (o : Order) (p q : ℚ) :
    (o.update_avg_price_and_filled_qty p q).price = o.price := rfl

theorem update_avg_id_eq (o : Order) (p q : ℚ) :
    (o.update_avg_price_and_filled_qty p q).id = o.id := rfl

/-- Facts about a successful `execute`: the trade price and the trade's maker
snapshot price are the popped maker's price, and the returned maker keeps its
id. -/
theorem execute_some_facts (taker maker : Order) (step : ℚ)
    (r : Order × Order × Trade) (h : execute taker maker step = some r) :
    r.2.2.price = maker.price ∧ r.2.2.maker.price = maker.price
    ∧ r.2.1.id = maker.id := by
  rw [execute] at h
  cases hq : executeQuantityAvailable taker maker step with
  | none => rw [hq] at h; cases h
  | some q0 =>
    rw [hq] at h
    simp only at h
    by_cases hle : round9 (maker.qty - maker.filled_quantity) ≤ q0
    · rw [if_pos hle] at h
      injection h with h
      subst h
      exact ⟨rfl, rfl, rfl⟩
    · rw [if_neg hle] at h
      injection h with h
      subst h
      exact ⟨rfl, rfl, rfl⟩

/-- Every trade accumulated by the matching loop either was already in the
accumulator or has the price of its own maker snapshot. -/
theorem matchSideLoop_trades_ok (cfg : TradingPairConfig) (bside : OrderSide) :
    ∀ (fuel : ℕ) (taker : Order) (book : List Order) (acc : List Trade),
    (∀ t ∈ acc, t.price = t.maker.price) →
    ∀ t ∈ (matchSideLoop cfg bside fuel taker book acc).2.2, t.price = t.maker.price := by
  intro fuel
  induction fuel with
  | zero => intro taker book acc hacc; simpa [matchSideLoop] using hacc
  | succ n ih =>
    intro taker book acc hacc
    cases book with
    | nil => simpa [matchSideLoop] using hacc
    | cons other rest =>
      by_cases h1 : taker.available_volume (some other.price) < cfg.min_volume
      · simp only [matchSideLoop, if_pos h1]
        exact hacc
      · cases hw : will_orders_match taker other with
        | false =>
          simp only [matchSideLoop, if_neg h1, hw, Bool.false_eq_true, if_false]
          exact hacc
        | true =>
          simp only [matchSideLoop, if_neg h1, hw, if_true]
          cases he : execute taker other cfg.qty_step_size with
          | none => exact hacc
          | some r =>
            simp only
            apply ih
            intro t ht
            rcases List.mem_append.mp ht with hl | hr
            · exact hacc t hl
            · have hfacts := execute_some_facts taker other cfg.qty_step_size r he
              have ht' : t = (if r.2.2.maker.available_volume (some r.2.1.price)
                  < cfg.min_volume then
                    { r.2.2 with maker := { r.2.2.maker with status := OrderStatus.CLOSED } }
                  else r.2.2) := by simpa using hr
              subst ht'
              split
              · exact hfacts.1.trans hfacts.2.1.symm
              · exact hfacts.1.trans hfacts.2.1.symm

/-- Every order in the book left by the matching loop keeps the id of some
order of the starting book (the loop only pops and pushes back). -/
theorem matchSideLoop_book_ids (cfg : TradingPairConfig) (bside : OrderSide) :
    ∀ (fuel : ℕ) (taker : Order) (book : List Order) (acc : List Trade)
      (x : Order), x ∈ (matchSideLoop cfg bside fuel taker book acc).2.1 →
      ∃ y ∈ book, x.id = y.id := by
  intro fuel
  induction fuel with
  | zero =>
    intro taker book acc x hx
    exact ⟨x, by simpa [matchSideLoop] using hx, rfl⟩
  | succ n ih =>
    intro taker book acc x hx
    cases book with
    | nil => simp [matchSideLoop] at hx
    | cons other rest =>
      by_cases h1 : taker.available_volume (some other.price) < cfg.min_volume
      · simp only [matchSideLoop, if_pos h1] at hx
        rcases mem_bookPush.mp hx with h | h
        · exact ⟨other, List.mem_cons_self _ _, by rw [h]⟩
        · exact ⟨x, List.mem_cons_of_mem _ h, rfl⟩
      · cases hw : will_orders_match taker other with
        | false =>
          simp only [matchSideLoop, if_neg h1, hw, Bool.false_eq_true, if_false] at hx
          rcases mem_bookPush.mp hx with h | h
          · exact ⟨other, List.mem_cons_self _ _, by rw [h]⟩
          · exact ⟨x, List.mem_cons_of_mem _ h, rfl⟩
        | true =>
          simp only [matchSideLoop, if_neg h1, hw, if_true] at hx
          cases he : execute taker other cfg.qty_step_size with
          | none =>
            rw [he] at hx
            simp only at hx
            rcases mem_bookPush.mp hx with h | h
            · exact ⟨other, List.mem_cons_self _ _, by rw [h]⟩
            · exact ⟨x, List.mem_cons_of_mem _ h, rfl⟩
          | some r =>
            rw [he] at hx
            simp only at hx
            have hid : r.2.1.id = other.id :=
              (execute_some_facts taker other cfg.qty_step_size r he).2.2
            rcases ih _ _ _ _ hx with ⟨y, hy, hxy⟩
            by_cases hbook : ¬ r.2.1.available_volume none < cfg.min_volume
            · rw [if_pos hbook] at hy
              rcases mem_bookPush.mp hy with h | h
              · exact ⟨other, List.mem_cons_self _ _, by rw [hxy, h, hid]⟩
              · exact ⟨y, List.mem_cons_of_mem _ h, hxy⟩
            · rw [if_neg hbook] at hy
              exact ⟨y, List.mem_cons_of_mem _ hy, hxy⟩

/-- The trades appended by `match_side` satisfy the maker-price property. -/
theorem match_side_trades_ok (ob : Orderbook) (taker : Order)
    (tc : List Trade) (cfg : TradingPairConfig) (fuel : ℕ) :
    ∀ t ∈ (ob.match_side taker tc cfg fuel).2.2,
      t ∈ tc ∨ t.price = t.maker.price := by
  intro t ht
  rw [Orderbook.match_side] at ht
  cases hs : taker.side with
  | Ask =>
    rw [hs] at ht
    cases hb : bmFind ob.bid_books taker.pair with
    | none => rw [hb] at ht; exact Or.inl ht
    | some book =>
      rw [hb] at ht
      simp only at ht
      rcases List.mem_append.mp ht with h | h
      · exact Or.inl h
      · exact Or.inr (matchSideLoop_trades_ok cfg OrderSide.Bid fuel taker book []
          (by intro t ht; cases ht) t h)
  | Bid =>
    rw [hs] at ht
    cases hb : bmFind ob.ask_books taker.pair with
    | none => rw [hb] at ht; exact Or.inl ht
    | some book =>
      rw [hb] at ht
      simp only at ht
      rcases List.mem_append.mp ht with h | h
      · exact Or.inl h
      · exact Or.inr (matchSideLoop_trades_ok cfg OrderSide.Ask fuel taker book []
          (by intro t ht; cases ht) t h)

/-- `change_status_of_order_in_trade` only touches the taker snapshot's
status, preserving the maker-price property. -/
theorem change_status_trades_ok :
    ∀ ts : List Trade, (∀ t ∈ ts, t.price = t.maker.price) →
    ∀ t ∈ change_status_of_order_in_trade ts, t.price = t.maker.price := by
  intro ts
  induction ts with
  | nil => intro h t ht; cases ht
  | cons a rest ih =>
    cases rest with
    | nil =>
      intro h t ht
      have he : t = { a with taker := { a.taker with status := OrderStatus.CLOSED } } := by
        simpa [change_status_of_order_in_trade] using ht
      subst he
      exact h a (List.mem_cons_self _ _)
    | cons b rest2 =>
      intro h t ht
      rcases List.mem_cons.mp (by simpa [change_status_of_order_in_trade] using ht) with h1 | hm
      · subst h1
        exact h t (List.mem_cons_self _ _)
      · exact ih (fun u hu => h u (List.mem_cons_of_mem _ hu)) t hm

/-- The trades produced by `match_order` (from an empty accumulator) satisfy
the maker-price property. -/
theorem match_order_trades_ok (ob : Orderbook) (cfg : TradingPairConfig)
    (taker : Order) (fuel : ℕ) :
    ∀ t ∈ (ob.match_order cfg taker [] fuel).2.2, t.price = t.maker.price := by
  intro t ht
  rw [Orderbook.match_order] at ht
  cases hty : taker.order_type with
  | LIMIT =>
    rw [hty] at ht
    rw [Orderbook.match_limit] at ht
    have hside : ∀ u ∈ (ob.match_side taker [] cfg fuel).2.2, u.price = u.maker.price := by
      intro u hu
      rcases match_side_trades_ok ob taker [] cfg fuel u hu with h | h
      · cases h
      · exact h
    by_cases hcl : (ob.match_side taker [] cfg fuel).2.1.available_volume none < cfg.min_volume
    · rw [if_pos hcl] at ht
      exact hside t ht
    · rw [if_neg hcl] at ht
      exact hside t ht
  | MARKET =>
    rw [hty] at ht
    rw [Orderbook.match_market] at ht
    refine change_status_trades_ok _ ?_ t ht
    intro u hu
    rcases match_side_trades_ok ob taker [] cfg fuel u hu with h | h
    · cases h
    · exact h

/-- `settle_trade_side` only changes the fee of the order snapshot. -/
theorem settle_trade_side_order (ob : Orderbook) (changes : OrderExecutionResult)
    (mv : ℚ) (mm : ℕ) (tid : ℕ × ℕ) (p a : ℚ) (order : Order) :
    (ob.settle_trade_side changes mv mm tid p a order).2.2.1
      = { order with fee := (ob.settle_trade_side changes mv mm tid p a order).2.2.1.fee } := rfl

/-- `settle_one_trade` preserves a trade's price and its maker's price. -/
theorem settle_one_trade_price (ob : Orderbook) (cfg : TradingPairConfig)
    (changes : OrderExecutionResult) (t : Trade) :
    (ob.settle_one_trade cfg changes t).2.2.1.price = t.price
    ∧ (ob.settle_one_trade cfg changes t).2.2.1.maker.price = t.maker.price := by
  constructor
  · rfl
  · show ((ob.settle_one_trade cfg changes t).2.2.1.maker).price = t.maker.price
    rw [Orderbook.settle_one_trade]
    simp only
    rw [settle_trade_side_order]

/-- The trades of the delta after `settle_trades` satisfy the maker-price
property whenever the incoming trades do. -/
theorem settle_trades_trades_ok (cfg : TradingPairConfig) :
    ∀ (l : List Trade) (ob : Orderbook) (ch : OrderExecutionResult)
      (done : List Trade),
    (∀ t ∈ done, t.price = t.maker.price) →
    (∀ t ∈ l, t.price = t.maker.price) →
    ∀ t ∈ (l.foldl (settleTradesStep cfg) (ob, ch, done)).2.2,
      t.price = t.maker.price := by
  intro l
  induction l with
  | nil => intro ob ch done hdone hl; simpa using hdone
  | cons a rest ih =>
    intro ob ch done hdone hl
    simp only [List.foldl_cons]
    apply ih
    · intro t ht
      have ht' : t ∈ done ∨ t = (ob.settle_one_trade cfg ch a).2.2.1 := by
        simpa [settleTradesStep] using ht
      rcases ht' with h | h
      · exact hdone t h
      · subst h
        have hp := settle_one_trade_price ob cfg ch a
        rw [hp.1, hp.2]
        exact hl a (List.mem_cons_self _ _)
    · intro t ht
      exact hl t (List.mem_cons_of_mem _ ht)

theorem reserve_balances_ok_shape (ob : Orderbook) (order : Order)
    (ch : OrderExecutionResult) (ob1 : Orderbook) (ch1 : OrderExecutionResult)
    (h : ob.reserve_balances order ch = (ob1, Except.ok ch1)) :
    ch1.trades = ch.trades ∧ ch1.pricelevels = ch.pricelevels
    ∧ ch1.modified_orders = ch.modified_orders ∧ ch1.stid = ch.stid := by
  rw [Orderbook.reserve_balances] at h
  simp only at h
  cases hb : bmFind ob.balances (order.main_account, (reserveAssetAmount order).1) with
  | none =>
    rw [hb] at h
    injection h with h1 h2
    cases h2
  | some fr =>
    rw [hb] at h
    simp only at h
    by_cases hle : round9 (reserveAssetAmount order).2 ≤ fr.1
    · rw [if_pos hle] at h
      injection h with h1 h2
      injection h2 with h2
      rw [← h2]
      exact ⟨rfl, rfl, rfl, rfl⟩
    · rw [if_neg hle] at h
      injection h with h1 h2
      cases h2

/-- `settle_price_level_updates` leaves the delta's trade list unchanged. -/
theorem settle_price_level_updates_delta_trades (ob : Orderbook)
    (cfg : TradingPairConfig) (o : Order) (ch : OrderExecutionResult) :
    (ob.settle_price_level_updates cfg o ch).2.trades = ch.trades := rfl

/-- The delta of `settle_trades` carries exactly the folded trade list. -/
theorem settle_trades_unfold (ob : Orderbook) (cfg : TradingPairConfig)
    (ch : OrderExecutionResult) :
    (ob.settle_trades cfg ch).2.trades
      = (ch.trades.foldl (settleTradesStep cfg) (ob, ch, [])).2.2 := rfl

/-- `free_reserve_balance_of_market_order` leaves the delta's trade list
unchanged. -/
theorem free_reserve_trades (ob : Orderbook) (o : Order)
    (ch : OrderExecutionResult) :
    (ob.free_reserve_balance_of_market_order o ch).2.trades = ch.trades := by
  rw [Orderbook.free_reserve_balance_of_market_order]
  split
  · split
    · simp only []
      split <;> rfl
    · simp only []
      split <;> rfl
  · rfl

theorem settle_order_updates_ok_shape (ob : Orderbook) (order : Order)
    (ch : OrderExecutionResult) (ob1 : Orderbook) (ch1 : OrderExecutionResult)
    (h : ob.settle_order_updates order ch = Except.ok (ob1, ch1)) :
    ch1.trades = ch.trades ∧ ch1.pricelevels = ch.pricelevels
    ∧ ch1.balances = ch.balances ∧ ch1.stid = ch.stid := by
  rw [Orderbook.settle_order_updates] at h
  cases hi : (if order.status = OrderStatus.OPEN then ob.insert_order order
              else Except.ok ob) with
  | error e => rw [hi] at h; cases h
  | ok ob2 =>
    rw [hi] at h
    simp only at h
    injection h with h
    have h2 := congrArg Prod.snd h
    simp only at h2
    rw [← h2]
    exact ⟨rfl, rfl, rfl, rfl⟩

/-- C7: every trade emitted by `execute` carries the maker order's price, and
consequently every trade in the delta of a successful `process_order` has its
price equal to the price of its maker snapshot. -/
theorem c7_trade_price_is_maker_price :
    (∀ (taker maker : Order) (step : ℚ) (r : Order × Order × Trade),
       execute taker maker step = some r → r.2.2.price = maker.price)
    ∧ (∀ (ob : Orderbook) (order : Order) (stid fuel : ℕ) (ob' : Orderbook)
         (res : OrderExecutionResult),
       ob.process_order order stid fuel = (ob', Except.ok res) →
       ∀ t ∈ res.trades, t.price = t.maker.price) := by
  constructor
  · intro taker maker step r h
    exact (execute_some_facts taker maker step r h).1
  · intro ob order stid fuel ob' res h t ht
    rw [Orderbook.process_order] at h
    cases hc : bmFind ob.trading_pairs order.pair with
    | none => rw [hc] at h; cases (congrArg Prod.snd h)
    | some config =>
      rw [hc] at h
      simp only at h
      cases hr : ob.reserve_balances order (OrderExecutionResult.freshResult stid) with
      | mk ob1 er =>
        rw [hr] at h
        cases er with
        | error e => simp only at h; cases (congrArg Prod.snd h)
        | ok ch1 =>
          simp only at h
          have hch1 := reserve_balances_ok_shape ob order
            (OrderExecutionResult.freshResult stid) ob1 ch1 hr
          cases hsu : Orderbook.settle_order_updates
              (if ob1.will_match order = true then
                 ob1.match_order config order ch1.trades fuel
               else (ob1, order, ch1.trades)).1
              (if ob1.will_match order = true then
                 ob1.match_order config order ch1.trades fuel
               else (ob1, order, ch1.trades)).2.1
              { ch1 with trades := (if ob1.will_match order = true then
                  ob1.match_order config order ch1.trades fuel
                else (ob1, order, ch1.trades)).2.2 } with
          | error e => rw [hsu] at h; cases (congrArg Prod.snd h)
          | ok step3 =>
            rw [hsu] at h
            simp only at h
            have hres := congrArg Prod.snd h
            simp only at hres
            injection hres with hres
            -- trades in the matched list satisfy the property
            have htrades : ∀ u ∈ (if ob1.will_match order = true then
                ob1.match_order config order ch1.trades fuel
              else (ob1, order, ch1.trades)).2.2, u.price = u.maker.price := by
              intro u hu
              by_cases hwm : ob1.will_match order = true
              · rw [if_pos hwm] at hu
                rw [hch1.1] at hu
                exact match_order_trades_ok ob1 config order fuel u hu
              · rw [if_neg hwm] at hu
                rw [hch1.1] at hu
                cases hu
            have hstep3 := settle_order_updates_ok_shape _ _ _ step3.1 step3.2 hsu
            rw [← hres] at ht
            rw [free_reserve_trades] at ht
            rw [settle_trades_unfold] at ht
            refine settle_trades_trades_ok config _ _ _ []
              (fun u hu => absurd hu (List.not_mem_nil u)) ?_ t ht
            intro u hu
            rw [settle_price_level_updates_delta_trades] at hu
            rw [hstep3.1] at hu
            exact htrades u hu

def c7taker : Order :=
  { id := 1, main_account := 1, pair := ⟨1, 2⟩, side := OrderSide.Bid,
    order_type := OrderType.LIMIT, price := 3, qty := 4, quote_order_qty := 0,
    filled_quantity := 0, avg_filled_price := 0, fee := 0,
    status := OrderStatus.OPEN, stid := 0, timestamp := 1 }

def c7maker : Order :=
  { id := 2, main_account := 2, pair := ⟨1, 2⟩, side := OrderSide.Ask,
    order_type := OrderType.LIMIT, price := 2, qty := 4, quote_order_qty := 0,
    filled_quantity := 0, avg_filled_price := 0, fee := 0,
    status := OrderStatus.OPEN, stid := 0, timestamp := 0 }

/-- Witness for C7 at a concrete input: a crossing limit pair produces a
trade priced at the maker's price 2. -/
theorem c7_witness :
    (∃ r, execute c7taker c7maker 1 = some r ∧ r.2.2.price = c7maker.price) := by
  cases he : execute c7taker c7maker 1 with
  | none => exact absurd he (by decide!)
  | some r =>
    exact ⟨r, rfl, c7_trade_price_is_maker_price.1 c7taker c7maker 1 r he⟩

/-! ## Claim C10: self-trades charge the maker fraction on both halves -/

/-- `update_in_memory_order_state_with_fee` only touches the books. -/
theorem update_in_memory_frame (ob : Orderbook) (o : Order) :
    (ob.update_in_memory_order_state_with_fee o).trading_pairs = ob.trading_pairs
    ∧ (ob.update_in_memory_order_state_with_fee o).pricelevels = ob.pricelevels
    ∧ (ob.update_in_memory_order_state_with_fee o).balances = ob.balances
    ∧ (ob.update_in_memory_order_state_with_fee o).fees_collector = ob.fees_collector := by
  rw [Orderbook.update_in_memory_order_state_with_fee]
  split <;> (split <;> exact ⟨rfl, rfl, rfl, rfl⟩)

/-- The fee receipt produced by `settle_trade_side` carries the computed
`is_maker` flag. -/
theorem settle_trade_side_is_maker (ob : Orderbook) (ch : OrderExecutionResult)
    (mv : ℚ) (mm : ℕ) (tid : ℕ × ℕ) (p a : ℚ) (o : Order) :
    (ob.settle_trade_side ch mv mm tid p a o).2.2.2.is_maker
      = decide (o.main_account = mm) := rfl

/-- The fee amount charged by `settle_trade_side` is the received amount times
the maker or taker fraction, selected by the `is_maker` flag. -/
theorem settle_trade_side_receipt_amt (ob : Orderbook) (ch : OrderExecutionResult)
    (mv : ℚ) (mm : ℕ) (tid : ℕ × ℕ) (p a : ℚ) (o : Order) :
    (ob.settle_trade_side ch mv mm tid p a o).2.2.2.amt
      = round9 ((calculate_assets_flows_from_trade p o.side o.pair a).2.1
          * (if decide (o.main_account = mm) then
               ((bmFind ob.fees_collector.fee_structure o.main_account).getD
                 ob.fees_collector.default_fee).maker_fraction
             else
               ((bmFind ob.fees_collector.fee_structure o.main_account).getD
                 ob.fees_collector.default_fee).taker_fraction)) := rfl

/-- `settle_trade_side` does not change the fee collector. -/
theorem settle_trade_side_feesc (ob : Orderbook) (ch : OrderExecutionResult)
    (mv : ℚ) (mm : ℕ) (tid : ℕ × ℕ) (p a : ℚ) (o : Order) :
    (ob.settle_trade_side ch mv mm tid p a o).1.fees_collector
      = ob.fees_collector :=
  (update_in_memory_frame ob _).2.2.2

/-- The bid-taker refund does not change the fee collector. -/
theorem bidRefundStep_feesc (ob : Orderbook) (ch : OrderExecutionResult)
    (t : Trade) : (bidRefundStep ob ch t).1.fees_collector = ob.fees_collector := by
  rw [bidRefundStep]
  split
  · rfl
  · split <;> rfl

/-- C10: for a self-trade (maker and taker share a main account, which the
engine does not prevent), `settle_trades` computes `is_maker = true` for both
halves, so the taker half is charged the account's maker fee fraction rather
than its taker fraction. -/
theorem c10_self_trade_taker_charged_maker_fee (ob : Orderbook)
    (cfg : TradingPairConfig) (ch : OrderExecutionResult) (t : Trade)
    (h : t.taker.main_account = t.maker.main_account) :
    ((ob.settle_one_trade cfg ch t).2.2.2.1.is_maker = true)
    ∧ ((ob.settle_one_trade cfg ch t).2.2.2.2.is_maker = true)
    ∧ (ob.settle_one_trade cfg ch t).2.2.2.2.amt
        = round9 ((calculate_assets_flows_from_trade t.price t.taker.side
            t.taker.pair t.amount).2.1
          * ((bmFind ob.fees_collector.fee_structure t.taker.main_account).getD
              ob.fees_collector.default_fee).maker_fraction) := by
  have hrM : (ob.settle_one_trade cfg ch t).2.2.2.1
      = (Orderbook.settle_trade_side (bidRefundStep ob ch t).1 (bidRefundStep ob ch t).2
          cfg.min_volume t.maker.main_account t.trade_ident t.price t.amount
          t.maker).2.2.2 := rfl
  have hrT : (ob.settle_one_trade cfg ch t).2.2.2.2
      = (Orderbook.settle_trade_side
          (Orderbook.settle_trade_side (bidRefundStep ob ch t).1 (bidRefundStep ob ch t).2
            cfg.min_volume t.maker.main_account t.trade_ident t.price t.amount t.maker).1
          (Orderbook.settle_trade_side (bidRefundStep ob ch t).1 (bidRefundStep ob ch t).2
            cfg.min_volume t.maker.main_account t.trade_ident t.price t.amount t.maker).2.1
          cfg.min_volume t.maker.main_account t.trade_ident t.price t.amount
          t.taker).2.2.2 := rfl
  refine ⟨?_, ?_, ?_⟩
  · rw [hrM, settle_trade_side_is_maker]
    simp
  · rw [hrT, settle_trade_side_is_maker]
    simp [h]
  · rw [hrT, settle_trade_side_receipt_amt]
    rw [settle_trade_side_feesc]
    rw [bidRefundStep_feesc]
    simp [h]

def c10maker : Order :=
  { id := 1, main_account := 7, pair := ⟨1, 2⟩, side := OrderSide.Ask,
    order_type := OrderType.LIMIT, price := 2, qty := 4, quote_order_qty := 0,
    filled_quantity := 4, avg_filled_price := 2, fee := 0,
    status := OrderStatus.CLOSED, stid := 0, timestamp := 0 }

def c10taker : Order :=
  { id := 2, main_account := 7, pair := ⟨1, 2⟩, side := OrderSide.Bid,
    order_type := OrderType.LIMIT, price := 2, qty := 4, quote_order_qty := 0,
    filled_quantity := 4, avg_filled_price := 2, fee := 0,
    status := OrderStatus.CLOSED, stid := 0, timestamp := 1 }

def c10trade : Trade :=
  { maker := c10maker, taker := c10taker, price := 2, amount := 4 }

def c10cfg : TradingPairConfig :=
  { base_asset := 1, quote_asset := 2, min_volume := 1, qty_step_size := 1 }

def c10fees : FeeCollector :=
  { pot := 99, fee_structure := [(7, ⟨1/100, 3/100⟩)], default_fee := ⟨0, 0⟩ }

def c10ob : Orderbook :=
  { trading_pairs := [], pricelevels := [], bid_books := [], ask_books := [],
    balances := [], fees_collector := c10fees }

/-- Witness for C10 at a concrete self-trade: both receipts report
`is_maker = true` and the taker half pays the 1% maker fraction, not the 3%
taker fraction. -/
theorem c10_witness :
    c10trade.taker.main_account = c10trade.maker.main_account
    ∧ (((c10ob.settle_one_trade c10cfg (OrderExecutionResult.freshResult 0) c10trade).2.2.2.1.is_maker = true)
       ∧ ((c10ob.settle_one_trade c10cfg (OrderExecutionResult.freshResult 0) c10trade).2.2.2.2.is_maker = true)
       ∧ (c10ob.settle_one_trade c10cfg (OrderExecutionResult.freshResult 0) c10trade).2.2.2.2.amt
          = round9 ((calculate_assets_flows_from_trade c10trade.price
              c10trade.taker.side c10trade.taker.pair c10trade.amount).2.1
            * ((bmFind c10ob.fees_collector.fee_structure
                c10trade.taker.main_account).getD
                c10ob.fees_collector.default_fee).maker_fraction)) :=
  ⟨by decide!,
   c10_self_trade_taker_charged_maker_fee c10ob c10cfg (OrderExecutionResult.freshResult 0) c10trade (by decide!)⟩

/-! ## Claim C9: the fee patch rewrites one heap entry and nothing else -/

/-- Patch the fee of the first list entry with the given id. -/
def patchFirst (oid : ℕ) (fee : ℚ) : List Order → List Order
  | [] => []
  | x :: rest =>
    if x.id = oid then { x with fee := fee } :: rest
    else x :: patchFirst oid fee rest

theorem patchFirst_length (oid : ℕ) (fee : ℚ) (l : List Order) :
    (patchFirst oid fee l).length = l.length := by
  induction l with
  | nil => rfl
  | cons x rest ih =>
    by_cases hx : x.id = oid
    · simp [patchFirst, hx]
    · simp [patchFirst, hx, ih]

theorem patchFirst_of_not_mem (oid : ℕ) (fee : ℚ) (l : List Order)
    (h : ∀ x ∈ l, x.id ≠ oid) : patchFirst oid fee l = l := by
  induction l with
  | nil => rfl
  | cons x rest ih =>
    have hx := h x (List.mem_cons_self _ _)
    simp only [patchFirst, hx, if_neg, if_false]
    rw [ih (fun y hy => h y (List.mem_cons_of_mem _ hy))]

theorem patchFirst_of_mem (oid : ℕ) (fee : ℚ) :
    ∀ l : List Order, (∃ x ∈ l, x.id = oid) →
    ∃ x, x ∈ l ∧ x.id = oid
      ∧ (patchFirst oid fee l).Perm ({ x with fee := fee } :: l.erase x) := by
  intro l
  induction l with
  | nil => intro h; rcases h with ⟨x, hx, _⟩; cases hx
  | cons y rest ih =>
    intro h
    by_cases hy : y.id = oid
    · refine ⟨y, List.mem_cons_self _ _, hy, ?_⟩
      rw [List.erase_cons_head]
      have h1 : patchFirst oid fee (y :: rest) = { y with fee := fee } :: rest := by
        simp [patchFirst, hy]
      rw [h1]
    · have h' : ∃ x ∈ rest, x.id = oid := by
        rcases h with ⟨x, hx, hid⟩
        rcases List.mem_cons.mp hx with h1 | h2
        · exact absurd (h1 ▸ hid) hy
        · exact ⟨x, h2, hid⟩
      rcases ih h' with ⟨x, hx, hid, hperm⟩
      refine ⟨x, List.mem_cons_of_mem _ hx, hid, ?_⟩
      have hyx : ¬ y == x := by
        simp only [beq_iff_eq]
        intro e
        exact hy (e ▸ hid)
      rw [List.erase_cons_tail hyx]
      have h1 : patchFirst oid fee (y :: rest) = y :: patchFirst oid fee rest := by
        simp [patchFirst, hy]
      rw [h1]
      exact (hperm.cons y).trans (List.Perm.swap _ y _)

/-- The pop-until-found loop is, up to heap reordering, the first-entry fee
patch followed by the re-merged accumulator. -/
theorem patchFeeLoop_perm (side : OrderSide) (oid : ℕ) (fee : ℚ) :
    ∀ (book acc : List Order),
    (patchFeeLoop side oid fee book acc).Perm (patchFirst oid fee book ++ acc) := by
  intro book
  induction book with
  | nil =>
    intro acc
    simpa [patchFeeLoop, patchFirst] using mergeBook_perm side [] acc
  | cons x rest ih =>
    intro acc
    by_cases hx : x.id = oid
    · simp only [patchFeeLoop, hx, if_pos, patchFirst]
      refine (mergeBook_perm side rest _).trans ?_
      refine ((bookPush_perm side _ acc).append_left rest).trans ?_
      exact List.perm_middle
    · simp only [patchFeeLoop, hx, if_neg, if_false, patchFirst]
      refine (ih _).trans ?_
      refine ((bookPush_perm side x acc).append_left _).trans ?_
      exact List.perm_middle

/-- The book rewritten by `update_in_memory_order_state_with_fee`, related to
its previous contents: same length, and the same multiset except that the
first entry carrying the order's id (if any) has only its fee replaced. -/
def patchedBookRel (oid : ℕ) (fee : ℚ) (b b' : List Order) : Prop :=
  b'.length = b.length
  ∧ (((∀ x ∈ b, x.id ≠ oid) ∧ b'.Perm b)
     ∨ ∃ x, x ∈ b ∧ x.id = oid ∧ b'.Perm ({ x with fee := fee } :: b.erase x))

theorem patchedBookRel_of_patchLoop (side : OrderSide) (oid : ℕ) (fee : ℚ)
    (b : List Order) : patchedBookRel oid fee b (patchFeeLoop side oid fee b []) := by
  have hperm : (patchFeeLoop side oid fee b []).Perm (patchFirst oid fee b) := by
    simpa using patchFeeLoop_perm side oid fee b []
  constructor
  · rw [hperm.length_eq, patchFirst_length]
  · by_cases hex : ∃ x ∈ b, x.id = oid
    · rcases patchFirst_of_mem oid fee b hex with ⟨x, hx, hid, hp⟩
      exact Or.inr ⟨x, hx, hid, hperm.trans hp⟩
    · left
      have hall : ∀ x ∈ b, x.id ≠ oid := by
        intro x hx he
        exact hex ⟨x, hx, he⟩
      exact ⟨hall, by rw [patchFirst_of_not_mem oid fee b hall] at hperm; exact hperm⟩

/-- C9: `update_in_memory_order_state_with_fee` changes at most the fee field
of the single book entry whose id equals the given order's id: every non-book
component of the engine is untouched, the opposite side's book map and every
other pair's book are untouched, and the rewritten book has the same length
and the same multiset of orders except that the first entry with the order's
id (when present) has its fee replaced by the order's fee. -/
theorem c9_update_fee_patch_frame (ob : Orderbook) (o : Order) :
    ((ob.update_in_memory_order_state_with_fee o).trading_pairs = ob.trading_pairs
     ∧ (ob.update_in_memory_order_state_with_fee o).pricelevels = ob.pricelevels
     ∧ (ob.update_in_memory_order_state_with_fee o).balances = ob.balances
     ∧ (ob.update_in_memory_order_state_with_fee o).fees_collector = ob.fees_collector)
    ∧ (o.side = OrderSide.Ask →
       (ob.update_in_memory_order_state_with_fee o).bid_books = ob.bid_books
       ∧ (∀ pr, pr ≠ o.pair →
           bmFind (ob.update_in_memory_order_state_with_fee o).ask_books pr
             = bmFind ob.ask_books pr)
       ∧ (bmFind ob.ask_books o.pair = none →
           ob.update_in_memory_order_state_with_fee o = ob)
       ∧ ∀ b, bmFind ob.ask_books o.pair = some b →
           ∃ b', bmFind (ob.update_in_memory_order_state_with_fee o).ask_books o.pair
               = some b' ∧ patchedBookRel o.id o.fee b b')
    ∧ (o.side = OrderSide.Bid →
       (ob.update_in_memory_order_state_with_fee o).ask_books = ob.ask_books
       ∧ (∀ pr, pr ≠ o.pair →
           bmFind (ob.update_in_memory_order_state_with_fee o).bid_books pr
             = bmFind ob.bid_books pr)
       ∧ (bmFind ob.bid_books o.pair = none →
           ob.update_in_memory_order_state_with_fee o = ob)
       ∧ ∀ b, bmFind ob.bid_books o.pair = some b →
           ∃ b', bmFind (ob.update_in_memory_order_state_with_fee o).bid_books o.pair
               = some b' ∧ patchedBookRel o.id o.fee b b') := by
  refine ⟨update_in_memory_frame ob o, ?_, ?_⟩
  · intro hside
    rw [Orderbook.update_in_memory_order_state_with_fee, hside]
    simp only
    cases hb : bmFind ob.ask_books o.pair with
    | none => exact ⟨rfl, fun pr _ => rfl, fun _ => rfl, fun b hbb => by cases hbb⟩
    | some book =>
      refine ⟨rfl, ?_, ?_, ?_⟩
      · intro pr hpr
        exact bmFind_bmPut_ne _ _ _ _ hpr
      · intro hnone
        cases hnone
      · intro b hbb
        injection hbb with hbb
        subst hbb
        exact ⟨_, bmFind_bmPut_self _ _ _, patchedBookRel_of_patchLoop _ _ _ _⟩
  · intro hside
    rw [Orderbook.update_in_memory_order_state_with_fee, hside]
    simp only
    cases hb : bmFind ob.bid_books o.pair with
    | none => exact ⟨rfl, fun pr _ => rfl, fun _ => rfl, fun b hbb => by cases hbb⟩
    | some book =>
      refine ⟨rfl, ?_, ?_, ?_⟩
      · intro pr hpr
        exact bmFind_bmPut_ne _ _ _ _ hpr
      · intro hnone
        cases hnone
      · intro b hbb
        injection hbb with hbb
        subst hbb
        exact ⟨_, bmFind_bmPut_self _ _ _, patchedBookRel_of_patchLoop _ _ _ _⟩

def c9resting : Order :=
  { id := 5, main_account := 3, pair := ⟨1, 2⟩, side := OrderSide.Ask,
    order_type := OrderType.LIMIT, price := 2, qty := 4, quote_order_qty := 0,
    filled_quantity := 0, avg_filled_price := 0, fee := 0,
    status := OrderStatus.OPEN, stid := 0, timestamp := 0 }

def c9other : Order :=
  { id := 6, main_account := 4, pair := ⟨1, 2⟩, side := OrderSide.Ask,
    order_type := OrderType.LIMIT, price := 3, qty := 4, quote_order_qty := 0,
    filled_quantity := 0, avg_filled_price := 0, fee := 0,
    status := OrderStatus.OPEN, stid := 0, timestamp := 1 }

def c9ob : Orderbook :=
  { trading_pairs := [], pricelevels := [], bid_books := [],
    ask_books := [(⟨1, 2⟩, [c9resting, c9other])], balances := [],
    fees_collector := { pot := 0, fee_structure := [], default_fee := ⟨0, 0⟩ } }

def c9patch : Order := { c9resting with fee := 7 }

/-- Witness for C9 at a concrete input: patching the fee of the resting order
with id 5 in a two-order ask book keeps the book's other order and its size. -/
theorem c9_witness :
    c9patch.side = OrderSide.Ask
    ∧ bmFind c9ob.ask_books c9patch.pair = some [c9resting, c9other]
    ∧ (c9ob.update_in_memory_order_state_with_fee c9patch).bid_books = c9ob.bid_books
    ∧ ∃ b', bmFind (c9ob.update_in_memory_order_state_with_fee c9patch).ask_books
          c9patch.pair = some b'
        ∧ patchedBookRel c9patch.id c9patch.fee [c9resting, c9other] b' := by
  have h := c9_update_fee_patch_frame c9ob c9patch
  have hside : c9patch.side = OrderSide.Ask := by decide!
  have hfind : bmFind c9ob.ask_books c9patch.pair = some [c9resting, c9other] := by decide!
  exact ⟨hside, hfind, (h.2.1 hside).1, (h.2.1 hside).2.2.2 _ hfind⟩

/-! ## Claim C8: market orders are never inserted into a book -/

/-- Whether any book of the map contains an order with the given id. -/
def booksContainId (books : BMap TradingPair (List Order)) (i : ℕ) : Bool :=
  books.any (fun kv => kv.2.any (fun o => o.id == i))

theorem booksContainId_iff (books : BMap TradingPair (List Order)) (i : ℕ) :
    booksContainId books i = true ↔ ∃ kv ∈ books, ∃ o ∈ kv.2, o.id = i := by
  simp [booksContainId, List.any_eq_true]

theorem booksContainId_of_find (books : BMap TradingPair (List Order))
    (pr : TradingPair) (b : List Order) (x : Order) (i : ℕ)
    (hf : bmFind books pr = some b) (hx : x ∈ b) (hi : x.id = i) :
    booksContainId books i = true :=
  (booksContainId_iff books i).mpr ⟨(pr, b), bmFind_mem books pr b hf, x, hx, hi⟩

theorem booksContainId_bmPut (books : BMap TradingPair (List Order))
    (pr : TradingPair) (b' : List Order) (i : ℕ)
    (h : booksContainId (bmPut books pr b') i = true) :
    (∃ x ∈ b', x.id = i) ∨ booksContainId books i = true := by
  induction books with
  | nil =>
    rcases (booksContainId_iff _ i).mp h with ⟨kv, hkv, o, ho, hoi⟩
    rcases List.mem_singleton.mp (by simpa [bmPut] using hkv) with rfl
    exact Or.inl ⟨o, ho, hoi⟩
  | cons kv rest ih =>
    obtain ⟨k, v⟩ := kv
    by_cases hk : k = pr
    · subst hk
      rcases (booksContainId_iff _ i).mp (by simpa [bmPut] using h) with ⟨kv2, hkv2, o, ho, hoi⟩
      rcases List.mem_cons.mp hkv2 with h1 | h2
      · subst h1
        exact Or.inl ⟨o, ho, hoi⟩
      · exact Or.inr ((booksContainId_iff _ i).mpr
          ⟨kv2, List.mem_cons_of_mem _ h2, o, ho, hoi⟩)
    · rcases (booksContainId_iff _ i).mp (by simpa [bmPut, hk] using h)
        with ⟨kv2, hkv2, o, ho, hoi⟩
      rcases List.mem_cons.mp hkv2 with h1 | h2
      · subst h1
        exact Or.inr ((booksContainId_iff _ i).mpr
          ⟨(k, v), List.mem_cons_self _ _, o, ho, hoi⟩)
      · rcases ih ((booksContainId_iff _ i).mpr ⟨kv2, h2, o, ho, hoi⟩) with hl | hr
        · exact Or.inl hl
        · exact Or.inr ((booksContainId_iff _ i).mpr (by
            rcases (booksContainId_iff _ i).mp hr with ⟨kv3, hkv3, o3, ho3, hoi3⟩
            exact ⟨kv3, List.mem_cons_of_mem _ hkv3, o3, ho3, hoi3⟩))

/-- `reserve_balances` never touches the books. -/
theorem reserve_balances_books (ob : Orderbook) (o : Order)
    (ch : OrderExecutionResult) :
    (ob.reserve_balances o ch).1.bid_books = ob.bid_books
    ∧ (ob.reserve_balances o ch).1.ask_books = ob.ask_books := by
  rw [Orderbook.reserve_balances]
  cases bmFind ob.balances (o.main_account, (reserveAssetAmount o).1) with
  | none => exact ⟨rfl, rfl⟩
  | some fr =>
    simp only
    split <;> exact ⟨rfl, rfl⟩

/-- The id-subset property of `match_side` on both book maps. -/
theorem match_side_books_ids (ob : Orderbook) (taker : Order) (tc : List Trade)
    (cfg : TradingPairConfig) (fuel : ℕ) (i : ℕ) :
    (booksContainId (ob.match_side taker tc cfg fuel).1.bid_books i = true →
       booksContainId ob.bid_books i = true)
    ∧ (booksContainId (ob.match_side taker tc cfg fuel).1.ask_books i = true →
       booksContainId ob.ask_books i = true) := by
  rw [Orderbook.match_side]
  cases taker.side with
  | Ask =>
    cases hb : bmFind ob.bid_books taker.pair with
    | none => exact ⟨fun h => h, fun h => h⟩
    | some book =>
      simp only
      constructor
      · intro h
        rcases booksContainId_bmPut _ _ _ _ h with ⟨x, hx, hxi⟩ | hrest
        · rcases matchSideLoop_book_ids cfg OrderSide.Bid fuel taker book [] x hx
            with ⟨y, hy, hxy⟩
          exact booksContainId_of_find _ _ _ y i hb hy (hxy ▸ hxi)
        · exact hrest
      · exact fun h => h
  | Bid =>
    cases hb : bmFind ob.ask_books taker.pair with
    | none => exact ⟨fun h => h, fun h => h⟩
    | some book =>
      simp only
      constructor
      · exact fun h => h
      · intro h
        rcases booksContainId_bmPut _ _ _ _ h with ⟨x, hx, hxi⟩ | hrest
        · rcases matchSideLoop_book_ids cfg OrderSide.Ask fuel taker book [] x hx
            with ⟨y, hy, hxy⟩
          exact booksContainId_of_find _ _ _ y i hb hy (hxy ▸ hxi)
        · exact hrest

theorem match_limit_engine (ob : Orderbook) (taker : Order) (tc : List Trade)
    (cfg : TradingPairConfig) (fuel : ℕ) :
    (ob.match_limit taker tc cfg fuel).1 = (ob.match_side taker tc cfg fuel).1 := by
  rw [Orderbook.match_limit]
  split <;> rfl

theorem match_market_engine (ob : Orderbook) (taker : Order) (tc : List Trade)
    (cfg : TradingPairConfig) (fuel : ℕ) :
    (ob.match_market taker tc cfg fuel).1 = (ob.match_side taker tc cfg fuel).1 := rfl

/-- The id-subset property of `match_order` on both book maps. -/
theorem match_order_books_ids (ob : Orderbook) (cfg : TradingPairConfig)
    (taker : Order) (tc : List Trade) (fuel : ℕ) (i : ℕ) :
    (booksContainId (ob.match_order cfg taker tc fuel).1.bid_books i = true →
       booksContainId ob.bid_books i = true)
    ∧ (booksContainId (ob.match_order cfg taker tc fuel).1.ask_books i = true →
       booksContainId ob.ask_books i = true) := by
  rw [Orderbook.match_order]
  cases taker.order_type with
  | LIMIT =>
    simp only
    rw [match_limit_engine]
    exact match_side_books_ids ob taker tc cfg fuel i
  | MARKET =>
    simp only
    rw [match_market_engine]
    exact match_side_books_ids ob taker tc cfg fuel i

theorem mem_patchFirst (oid : ℕ) (fee : ℚ) :
    ∀ (l : List Order) (x : Order), x ∈ patchFirst oid fee l →
    ∃ y ∈ l, x.id = y.id := by
  intro l
  induction l with
  | nil => intro x hx; cases hx
  | cons y rest ih =>
    intro x hx
    by_cases hy : y.id = oid
    · rcases List.mem_cons.mp (by simpa [patchFirst, hy] using hx) with h1 | h2
      · exact ⟨y, List.mem_cons_self _ _, by rw [h1]; exact hy.symm⟩
      · exact ⟨x, List.mem_cons_of_mem _ h2, rfl⟩
    · rcases List.mem_cons.mp (by simpa [patchFirst, hy] using hx) with h1 | h2
      · exact ⟨y, List.mem_cons_self _ _, by rw [h1]⟩
      · rcases ih x h2 with ⟨z, hz, hxz⟩
        exact ⟨z, List.mem_cons_of_mem _ hz, hxz⟩

/-- The id-subset property of the fee patch on both book maps. -/
theorem update_in_memory_books_ids (ob : Orderbook) (o : Order) (i : ℕ) :
    (booksContainId (ob.update_in_memory_order_state_with_fee o).bid_books i = true →
       booksContainId ob.bid_books i = true)
    ∧ (booksContainId (ob.update_in_memory_order_state_with_fee o).ask_books i = true →
       booksContainId ob.ask_books i = true) := by
  rw [Orderbook.update_in_memory_order_state_with_fee]
  cases o.side with
  | Ask =>
    cases hb : bmFind ob.ask_books o.pair with
    | none => exact ⟨fun h => h, fun h => h⟩
    | some book =>
      simp only
      refine ⟨fun h => h, fun h => ?_⟩
      rcases booksContainId_bmPut _ _ _ _ h with ⟨x, hx, hxi⟩ | hrest
      · have hx' : x ∈ patchFirst o.id o.fee book := by
          have hm := (patchFeeLoop_perm OrderSide.Ask o.id o.fee book []).mem_iff.mp hx
          simpa using hm
        rcases mem_patchFirst o.id o.fee book x hx' with ⟨y, hy, hxy⟩
        exact booksContainId_of_find _ _ _ y i hb hy (hxy ▸ hxi)
      · exact hrest
  | Bid =>
    cases hb : bmFind ob.bid_books o.pair with
    | none => exact ⟨fun h => h, fun h => h⟩
    | some book =>
      simp only
      refine ⟨fun h => ?_, fun h => h⟩
      rcases booksContainId_bmPut _ _ _ _ h with ⟨x, hx, hxi⟩ | hrest
      · have hx' : x ∈ patchFirst o.id o.fee book := by
          have hm := (patchFeeLoop_perm OrderSide.Bid o.id o.fee book []).mem_iff.mp hx
          simpa using hm
        rcases mem_patchFirst o.id o.fee book x hx' with ⟨y, hy, hxy⟩
        exact booksContainId_of_find _ _ _ y i hb hy (hxy ▸ hxi)
      · exact hrest

/-- The engine produced by `settle_trade_side` carries exactly the books of
the fee-patched engine (all later steps touch only balances). -/
theorem settle_trade_side_upd (ob : Orderbook) (ch : OrderExecutionResult)
    (mv : ℚ) (mm : ℕ) (tid : ℕ × ℕ) (p a : ℚ) (o : Order) :
    ∃ o2, (ob.settle_trade_side ch mv mm tid p a o).1.bid_books
        = (ob.update_in_memory_order_state_with_fee o2).bid_books
      ∧ (ob.settle_trade_side ch mv mm tid p a o).1.ask_books
        = (ob.update_in_memory_order_state_with_fee o2).ask_books :=
  ⟨_, rfl, rfl⟩

theorem settle_trade_side_books_ids (ob : Orderbook) (ch : OrderExecutionResult)
    (mv : ℚ) (mm : ℕ) (tid : ℕ × ℕ) (p a : ℚ) (o : Order) (i : ℕ) :
    (booksContainId (ob.settle_trade_side ch mv mm tid p a o).1.bid_books i = true →
       booksContainId ob.bid_books i = true)
    ∧ (booksContainId (ob.settle_trade_side ch mv mm tid p a o).1.ask_books i = true →
       booksContainId ob.ask_books i = true) := by
  obtain ⟨o2, hb, ha⟩ := settle_trade_side_upd ob ch mv mm tid p a o
  constructor
  · intro h
    rw [hb] at h
    exact (update_in_memory_books_ids ob o2 i).1 h
  · intro h
    rw [ha] at h
    exact (update_in_memory_books_ids ob o2 i).2 h

theorem bidRefundStep_books (ob : Orderbook) (ch : OrderExecutionResult)
    (t : Trade) :
    (bidRefundStep ob ch t).1.bid_books = ob.bid_books
    ∧ (bidRefundStep ob ch t).1.ask_books = ob.ask_books := by
  rw [bidRefundStep]
  split
  · exact ⟨rfl, rfl⟩
  · split <;> exact ⟨rfl, rfl⟩

theorem settle_one_trade_books_ids (ob : Orderbook) (cfg : TradingPairConfig)
    (ch : OrderExecutionResult) (t : Trade) (i : ℕ) :
    (booksContainId (ob.settle_one_trade cfg ch t).1.bid_books i = true →
       booksContainId ob.bid_books i = true)
    ∧ (booksContainId (ob.settle_one_trade cfg ch t).1.ask_books i = true →
       booksContainId ob.ask_books i = true) := by
  have h1 : (ob.settle_one_trade cfg ch t).1
      = (Orderbook.settle_trade_side
          (Orderbook.settle_trade_side (bidRefundStep ob ch t).1 (bidRefundStep ob ch t).2
            cfg.min_volume t.maker.main_account t.trade_ident t.price t.amount t.maker).1
          (Orderbook.settle_trade_side (bidRefundStep ob ch t).1 (bidRefundStep ob ch t).2
            cfg.min_volume t.maker.main_account t.trade_ident t.price t.amount t.maker).2.1
          cfg.min_volume t.maker.main_account t.trade_ident t.price t.amount
          t.taker).1 := rfl
  rw [h1]
  have hrb := bidRefundStep_books ob ch t
  constructor
  · intro h
    have h2 := (settle_trade_side_books_ids _ _ _ _ _ _ _ t.taker i).1 h
    have h3 := (settle_trade_side_books_ids _ _ _ _ _ _ _ t.maker i).1 h2
    rw [hrb.1] at h3
    exact h3
  · intro h
    have h2 := (settle_trade_side_books_ids _ _ _ _ _ _ _ t.taker i).2 h
    have h3 := (settle_trade_side_books_ids _ _ _ _ _ _ _ t.maker i).2 h2
    rw [hrb.2] at h3
    exact h3

theorem settle_trades_fold_books_ids (cfg : TradingPairConfig) :
    ∀ (l : List Trade) (acc : Orderbook × OrderExecutionResult × List Trade) (i : ℕ),
    (booksContainId (l.foldl (settleTradesStep cfg) acc).1.bid_books i = true →
       booksContainId acc.1.bid_books i = true)
    ∧ (booksContainId (l.foldl (settleTradesStep cfg) acc).1.ask_books i = true →
       booksContainId acc.1.ask_books i = true) := by
  intro l
  induction l with
  | nil => intro acc i; exact ⟨fun h => h, fun h => h⟩
  | cons a rest ih =>
    intro acc i
    simp only [List.foldl_cons]
    have hstep : (settleTradesStep cfg acc a).1
        = (acc.1.settle_one_trade cfg acc.2.1 a).1 := rfl
    constructor
    · intro h
      have h2 := (ih (settleTradesStep cfg acc a) i).1 h
      rw [hstep] at h2
      exact (settle_one_trade_books_ids acc.1 cfg acc.2.1 a i).1 h2
    · intro h
      have h2 := (ih (settleTradesStep cfg acc a) i).2 h
      rw [hstep] at h2
      exact (settle_one_trade_books_ids acc.1 cfg acc.2.1 a i).2 h2

theorem settle_trades_books_ids (ob : Orderbook) (cfg : TradingPairConfig)
    (ch : OrderExecutionResult) (i : ℕ) :
    (booksContainId (ob.settle_trades cfg ch).1.bid_books i = true →
       booksContainId ob.bid_books i = true)
    ∧ (booksContainId (ob.settle_trades cfg ch).1.ask_books i = true →
       booksContainId ob.ask_books i = true) := by
  have h1 : (ob.settle_trades cfg ch).1
      = (ch.trades.foldl (settleTradesStep cfg) (ob, ch, [])).1 := rfl
  rw [h1]
  exact settle_trades_fold_books_ids cfg ch.trades (ob, ch, []) i

theorem settle_price_level_books (ob : Orderbook) (cfg : TradingPairConfig)
    (o : Order) (ch : OrderExecutionResult) :
    (ob.settle_price_level_updates cfg o ch).1.bid_books = ob.bid_books
    ∧ (ob.settle_price_level_updates cfg o ch).1.ask_books = ob.ask_books := by
  have hfold : ∀ (l : List Trade) (acc : Orderbook × PriceLevels),
      (l.foldl (priceLevelReduceStep cfg) acc).1.bid_books = acc.1.bid_books
      ∧ (l.foldl (priceLevelReduceStep cfg) acc).1.ask_books = acc.1.ask_books := by
    intro l
    induction l with
    | nil => intro acc; exact ⟨rfl, rfl⟩
    | cons a rest ih =>
      intro acc
      simp only [List.foldl_cons]
      have hstep : (priceLevelReduceStep cfg acc a).1.bid_books = acc.1.bid_books
          ∧ (priceLevelReduceStep cfg acc a).1.ask_books = acc.1.ask_books := ⟨rfl, rfl⟩
      rw [(ih _).1, (ih _).2, hstep.1, hstep.2]
      exact ⟨rfl, rfl⟩
  have h1 : (ob.settle_price_level_updates cfg o ch).1
      = (ch.trades.foldl (priceLevelReduceStep cfg)
          (if o.status = OrderStatus.OPEN then
            ob.add_to_pricelevel cfg o.pair o.price
              (max (o.qty - o.filled_quantity) 0) o.side ch.pricelevels
          else (ob, ch.pricelevels))).1 := rfl
  rw [h1, (hfold _ _).1, (hfold _ _).2]
  split <;> exact ⟨rfl, rfl⟩

theorem free_reserve_books (ob : Orderbook) (o : Order)
    (ch : OrderExecutionResult) :
    (ob.free_reserve_balance_of_market_order o ch).1.bid_books = ob.bid_books
    ∧ (ob.free_reserve_balance_of_market_order o ch).1.ask_books = ob.ask_books := by
  rw [Orderbook.free_reserve_balance_of_market_order]
  split
  · split
    · simp only []
      split <;> exact ⟨rfl, rfl⟩
    · simp only []
      split <;> exact ⟨rfl, rfl⟩
  · exact ⟨rfl, rfl⟩

/-- `settle_order_updates` on a non-open order never inserts, so the books
are untouched. -/
theorem settle_order_updates_closed_books (ob : Orderbook) (order : Order)
    (ch : OrderExecutionResult) (ob1 : Orderbook) (ch1 : OrderExecutionResult)
    (hcl : order.status ≠ OrderStatus.OPEN)
    (h : ob.settle_order_updates order ch = Except.ok (ob1, ch1)) :
    ob1.bid_books = ob.bid_books ∧ ob1.ask_books = ob.ask_books := by
  rw [Orderbook.settle_order_updates, if_neg hcl] at h
  simp only at h
  injection h with h
  have h2 := congrArg Prod.fst h
  simp only at h2
  rw [← h2]
  exact ⟨rfl, rfl⟩

/-- A market order always may match. -/
theorem will_match_market (ob : Orderbook) (o : Order)
    (h : o.order_type = OrderType.MARKET) : ob.will_match o = true := by
  rw [Orderbook.will_match, if_pos h]

/-- `match_market` always closes the taker. -/
theorem match_market_closes (ob : Orderbook) (taker : Order) (tc : List Trade)
    (cfg : TradingPairConfig) (fuel : ℕ) :
    (ob.match_market taker tc cfg fuel).2.1.status = OrderStatus.CLOSED := rfl

/-- `match_order` on a market order is `match_market`. -/
theorem match_order_market (ob : Orderbook) (cfg : TradingPairConfig)
    (taker : Order) (tc : List Trade) (fuel : ℕ)
    (h : taker.order_type = OrderType.MARKET) :
    ob.match_order cfg taker tc fuel = ob.match_market taker tc cfg fuel := by
  rw [Orderbook.match_order, h]

/-- C8: a market order is never inserted into a book.  `match_market` always
sets the taker's status to Closed; `settle_order_updates` changes no book for
an order that is not Open; and consequently, when `process_order` handles a
market order, every order id present in the final books was already present
in the initial books — in particular, a market order with a fresh id never
appears in any book. -/
theorem c8_market_never_inserted :
    (∀ (ob : Orderbook) (taker : Order) (tc : List Trade)
       (cfg : TradingPairConfig) (fuel : ℕ),
       (ob.match_market taker tc cfg fuel).2.1.status = OrderStatus.CLOSED)
    ∧ (∀ (ob : Orderbook) (order : Order) (ch : OrderExecutionResult)
         (ob1 : Orderbook) (ch1 : OrderExecutionResult),
       order.status ≠ OrderStatus.OPEN →
       ob.settle_order_updates order ch = Except.ok (ob1, ch1) →
       ob1.bid_books = ob.bid_books ∧ ob1.ask_books = ob.ask_books)
    ∧ (∀ (ob : Orderbook) (order : Order) (stid fuel i : ℕ),
       order.order_type = OrderType.MARKET →
       (booksContainId (ob.process_order order stid fuel).1.bid_books i = true →
          booksContainId ob.bid_books i = true)
       ∧ (booksContainId (ob.process_order order stid fuel).1.ask_books i = true →
          booksContainId ob.ask_books i = true)) := by
  refine ⟨fun ob taker tc cfg fuel => rfl, ?_, ?_⟩
  · intro ob order ch ob1 ch1 hcl h
    exact settle_order_updates_closed_books ob order ch ob1 ch1 hcl h
  · intro ob order stid fuel i hmkt
    rw [Orderbook.process_order]
    cases hc : bmFind ob.trading_pairs order.pair with
    | none => exact ⟨fun h => h, fun h => h⟩
    | some config =>
      simp only
      cases hr : ob.reserve_balances order (OrderExecutionResult.freshResult stid) with
      | mk ob1 er =>
        have hrb := reserve_balances_books ob order (OrderExecutionResult.freshResult stid)
        rw [hr] at hrb
        simp only at hrb
        cases er with
        | error e =>
          simp only
          exact ⟨fun h => hrb.1 ▸ h, fun h => hrb.2 ▸ h⟩
        | ok ch1 =>
          simp only
          rw [if_pos (will_match_market ob1 order hmkt)]
          rw [match_order_market ob1 config order ch1.trades fuel hmkt]
          have hclosed : (ob1.match_market order ch1.trades config fuel).2.1.status
              ≠ OrderStatus.OPEN := by
            rw [match_market_closes]
            intro hx
            cases hx
          have hMids := match_side_books_ids ob1 order ch1.trades config fuel i
          rw [← match_market_engine] at hMids
          cases hsu : Orderbook.settle_order_updates
              (ob1.match_market order ch1.trades config fuel).1
              (ob1.match_market order ch1.trades config fuel).2.1
              { ch1 with trades := (ob1.match_market order ch1.trades config fuel).2.2 } with
          | error e =>
            simp only
            exact ⟨fun h => hrb.1 ▸ hMids.1 h, fun h => hrb.2 ▸ hMids.2 h⟩
          | ok step3 =>
            simp only
            have hbooks := settle_order_updates_closed_books _ _ _ step3.1 step3.2
              hclosed hsu
            refine ⟨fun h => ?_, fun h => ?_⟩
            · rw [(free_reserve_books _ _ _).1] at h
              have h2 := (settle_trades_books_ids _ config _ i).1 h
              rw [(settle_price_level_books _ config _ _).1, hbooks.1] at h2
              exact hrb.1 ▸ hMids.1 h2
            · rw [(free_reserve_books _ _ _).2] at h
              have h2 := (settle_trades_books_ids _ config _ i).2 h
              rw [(settle_price_level_books _ config _ _).2, hbooks.2] at h2
              exact hrb.2 ▸ hMids.2 h2

def c8pair : TradingPair := ⟨1, 2⟩

def c8cfg : TradingPairConfig :=
  { base_asset := 1, quote_asset := 2, min_volume := 1/10, qty_step_size := 1/10 }

def c8bid : Order :=
  { id := 7, main_account := 31, pair := c8pair, side := OrderSide.Bid,
    order_type := OrderType.LIMIT, price := 2, qty := 10, quote_order_qty := 0,
    filled_quantity := 0, avg_filled_price := 0, fee := 0,
    status := OrderStatus.OPEN, stid := 0, timestamp := 0 }

def c8market : Order :=
  { id := 99, main_account := 30, pair := c8pair, side := OrderSide.Ask,
    order_type := OrderType.MARKET, price := 0, qty := 1, quote_order_qty := 0,
    filled_quantity := 0, avg_filled_price := 0, fee := 0,
    status := OrderStatus.OPEN, stid := 0, timestamp := 1 }

def c8fees : FeeCollector :=
  { pot := 90, fee_structure := [], default_fee := ⟨0, 0⟩ }

def c8ob : Orderbook :=
  { trading_pairs := [(c8pair, c8cfg)], pricelevels := [],
    bid_books := [(c8pair, [c8bid])], ask_books := [(c8pair, [])],
    balances := [((30, 1), (5, 0)), ((30, 2), (5, 0)), ((31, 1), (5, 0)), ((31, 2), (20, 20))],
    fees_collector := c8fees }

/-- Witness for C8 at a concrete input: a market ask partially fills the
resting bid with id 7; the bid book after the call still contains id 7, and
the theorem transports that back to the initial books. -/
theorem c8_witness :
    c8market.order_type = OrderType.MARKET
    ∧ booksContainId (c8ob.process_order c8market 1 5).1.bid_books 7 = true
    ∧ booksContainId c8ob.bid_books 7 = true :=
  ⟨by decide!, by decide!,
   (c8_market_never_inserted.2.2 c8ob c8market 1 5 7 (by decide!)).1 (by decide!)⟩

/-! ## Claim C3: market-bid-in-quote quantization -/

def c3pair : TradingPair := ⟨1, 2⟩

def c3taker : Order :=
  { id := 11, main_account := 100, pair := c3pair, side := OrderSide.Bid,
    order_type := OrderType.MARKET, price := 0, qty := 0, quote_order_qty := 5/2,
    filled_quantity := 0, avg_filled_price := 0, fee := 0,
    status := OrderStatus.OPEN, stid := 0, timestamp := 1 }

def c3maker : Order :=
  { id := 12, main_account := 200, pair := c3pair, side := OrderSide.Ask,
    order_type := OrderType.LIMIT, price := 101/100, qty := 100, quote_order_qty := 0,
    filled_quantity := 0, avg_filled_price := 0, fee := 0,
    status := OrderStatus.OPEN, stid := 0, timestamp := 0 }

/-- C3 (code bug): for a quote-budget market bid (`qty == 0`,
`quote_order_qty = 2.5`) against a maker at price 1.01 with
`qty_step_size = 0.01`, `execute` emits a trade of amount 2.475247524 —
`round9((available_qty / step) × step)` is the identity, not a flooring — so
the emitted amount is *not* a multiple of the step (the truncating
quantization the claim and the source comment describe would have produced
2.47). -/
theorem c3_quantization_code_bug :
    ((execute c3taker c3maker (1/100)).map (fun x => x.2.2.amount)
       = some (2475247524/1000000000))
    ∧ ¬ (∃ k : ℤ, (2475247524/1000000000 : ℚ) = k * (1/100))
    ∧ ((truncZ (round9 (c3taker.quote_order_qty / c3maker.price) / (1/100)) : ℚ)
         * (1/100) = 247/100)
    ∧ (247/100 : ℚ) ≠ 2475247524/1000000000 := by
  refine ⟨by decide!, ?_, by decide!, by decide!⟩
  rintro ⟨k, hk⟩
  have h1 : ((2475247524/1000000000 : ℚ) * 100) = (k : ℚ) := by
    rw [hk]
    ring
  have h2 : ((2475247524/1000000000 : ℚ) * 100).den = 1 := by
    rw [h1]
    exact Rat.intCast_den k
  have h3 : ((2475247524/1000000000 : ℚ) * 100).den = 2500000 := by decide!
  rw [h3] at h2
  exact absurd h2 (by decide)

/-! ## Claim C2: non-negativity of balances after process_order -/

def c2pair : TradingPair := ⟨1, 2⟩

def c2cfg : TradingPairConfig :=
  { base_asset := 1, quote_asset := 2, min_volume := 2/1000000000,
    qty_step_size := 1/1000000000 }

def c2fees : FeeCollector :=
  { pot := 99, fee_structure := [(10, ⟨0, 0⟩), (20, ⟨0, 0⟩)], default_fee := ⟨0, 0⟩ }

def c2ob : Orderbook :=
  { trading_pairs := [(c2pair, c2cfg)], pricelevels := [],
    bid_books := [(c2pair, [])], ask_books := [(c2pair, [])],
    balances := [((10, 1), (100, 0)), ((10, 2), (100, 0)),
                 ((20, 1), (100, 0)), ((20, 2), (1, 0))],
    fees_collector := c2fees }

def c2maker : Order :=
  { id := 1, main_account := 10, pair := c2pair, side := OrderSide.Ask,
    order_type := OrderType.LIMIT, price := 3, qty := 10, quote_order_qty := 0,
    filled_quantity := 0, avg_filled_price := 0, fee := 0,
    status := OrderStatus.OPEN, stid := 0, timestamp := 0 }

def c2taker : Order :=
  { id := 2, main_account := 20, pair := c2pair, side := OrderSide.Bid,
    order_type := OrderType.LIMIT, price := 3, qty := 15/10000000000,
    quote_order_qty := 0, filled_quantity := 0, avg_filled_price := 0, fee := 0,
    status := OrderStatus.OPEN, stid := 0, timestamp := 1 }

def c2step1 : Orderbook × Except EngineError OrderExecutionResult :=
  c2ob.process_order c2maker 1 10

def c2step2 : Orderbook × Except EngineError OrderExecutionResult :=
  c2step1.1.process_order c2taker 2 10

/-- C2 (code bug): starting from an engine whose balances are all
non-negative, two successful `process_order` calls with fresh, well-formed
limit orders (a resting ask of 10 at price 3, then a tiny crossing bid of
1.5e-9) leave account 20's quote balance with `reserved = -5e-10 < 0`: the
reservation rounds `1.5e-9 × 3 = 4.5e-9` down to `4e-9`, but settlement debits
the full `3e-9 + 1.5e-9` without clamping (`src/lib.rs` line 449 has no
`max(0)`). -/
theorem c2_negative_reserved_code_bug :
    (∀ kv ∈ c2ob.balances, 0 ≤ kv.2.1 ∧ 0 ≤ kv.2.2)
    ∧ (c2maker.filled_quantity = 0 ∧ c2taker.filled_quantity = 0
       ∧ 0 < c2maker.qty ∧ 0 < c2taker.qty
       ∧ c2maker.status = OrderStatus.OPEN ∧ c2taker.status = OrderStatus.OPEN)
    ∧ c2step1.2.toOption.isSome = true
    ∧ c2step2.2.toOption.isSome = true
    ∧ bmFind c2step2.1.balances (20, 2)
        = some (999999997/1000000000, -(1/2000000000))
    ∧ (-(1/2000000000) : ℚ) < 0 :=
  ⟨by decide!, by decide!, by decide!, by decide!, by decide!, by decide!⟩

/-! ## Claim C1: failed process_order leaves the engine unchanged -/

deriving instance DecidableEq for Except

/-- `insert_order` can only fail with the book-not-opened error. -/
theorem insert_order_error_kind (ob : Orderbook) (o : Order) (e : EngineError)
    (h : ob.insert_order o = Except.error e) :
    e = EngineError.orderBookNotOpened := by
  rw [Orderbook.insert_order] at h
  cases hside : o.side with
  | Ask =>
    rw [hside] at h
    cases hb : bmFind ob.ask_books o.pair with
    | none =>
      rw [hb] at h
      simp only at h
      injection h with h
      exact h.symm
    | some b =>
      rw [hb] at h
      simp only at h
      cases h
  | Bid =>
    rw [hside] at h
    cases hb : bmFind ob.bid_books o.pair with
    | none =>
      rw [hb] at h
      simp only at h
      injection h with h
      exact h.symm
    | some b =>
      rw [hb] at h
      simp only at h
      cases h

/-- `settle_order_updates` can only fail with the book-not-opened error. -/
theorem settle_order_updates_error_kind (ob : Orderbook) (o : Order)
    (ch : OrderExecutionResult) (e : EngineError)
    (h : ob.settle_order_updates o ch = Except.error e) :
    e = EngineError.orderBookNotOpened := by
  rw [Orderbook.settle_order_updates] at h
  by_cases hop : o.status = OrderStatus.OPEN
  · rw [if_pos hop] at h
    cases hi : ob.insert_order o with
    | error e2 =>
      rw [hi] at h
      simp only at h
      injection h with h
      rw [h] at hi
      exact insert_order_error_kind ob o e hi
    | ok ob2 =>
      rw [hi] at h
      simp only at h
      cases h
  · rw [if_neg hop] at h
    simp only at h
    cases h

def c1pair : TradingPair := ⟨1, 2⟩

def c1cfg : TradingPairConfig :=
  { base_asset := 1, quote_asset := 2, min_volume := 1/10, qty_step_size := 1/10 }

def c1fees : FeeCollector :=
  { pot := 90, fee_structure := [], default_fee := ⟨0, 0⟩ }

def c1ob : Orderbook :=
  { trading_pairs := [(c1pair, c1cfg)], pricelevels := [],
    bid_books := [(c1pair, [])], ask_books := [(c1pair, [])],
    balances := [], fees_collector := c1fees }

def c1order : Order :=
  { id := 1, main_account := 50, pair := c1pair, side := OrderSide.Bid,
    order_type := OrderType.LIMIT, price := 10, qty := 1, quote_order_qty := 0,
    filled_quantity := 0, avg_filled_price := 0, fee := 0,
    status := OrderStatus.OPEN, stid := 0, timestamp := 0 }

/-- C1, counterexample: a reservation failure is not always mutation-free —
when the (account, asset) key is absent from the balances map,
`entry(...).or_insert((0, 0))` inserts a zero entry before the error
returns, so the post-call balances map differs from the pre-call one. -/
theorem c1_counterexample :
    (c1ob.process_order c1order 1 5).2 = Except.error EngineError.reserveFailed
    ∧ bmFind c1ob.balances (50, 2) = none
    ∧ bmFind (c1ob.process_order c1order 1 5).1.balances (50, 2) = some (0, 0) :=
  ⟨by decide!, by decide!, by decide!⟩

/-- C1, amended: when `process_order` fails with the missing-pair-config
error the engine is exactly unchanged; when it fails with the reservation
error, the books, price levels, trading pairs and fee collector are
unchanged, and the balances map is either exactly unchanged (key present with
insufficient free balance) or extended with a single zero entry at the
order's (account, reserve-asset) key, which was previously absent, all other
keys unaffected. -/
theorem c1_error_state_frame (ob : Orderbook) (order : Order) (stid fuel : ℕ)
    (ob' : Orderbook) (e : EngineError)
    (h : ob.process_order order stid fuel = (ob', Except.error e)) :
    (e = EngineError.tradingPairConfigNotFound → ob' = ob)
    ∧ (e = EngineError.reserveFailed →
       ob'.bid_books = ob.bid_books ∧ ob'.ask_books = ob.ask_books
       ∧ ob'.pricelevels = ob.pricelevels ∧ ob'.trading_pairs = ob.trading_pairs
       ∧ ob'.fees_collector = ob.fees_collector
       ∧ (ob'.balances = ob.balances
          ∨ (bmFind ob.balances (order.main_account, (reserveAssetAmount order).1) = none
             ∧ ob'.balances = bmPut ob.balances
                 (order.main_account, (reserveAssetAmount order).1) (0, 0)
             ∧ ∀ k, k ≠ (order.main_account, (reserveAssetAmount order).1) →
                 bmFind ob'.balances k = bmFind ob.balances k))) := by
  rw [Orderbook.process_order] at h
  cases hc : bmFind ob.trading_pairs order.pair with
  | none =>
    rw [hc] at h
    injection h with h1 h2
    injection h2 with h2
    exact ⟨fun _ => h1.symm, fun he => by rw [← h2] at he; cases he⟩
  | some config =>
    rw [hc] at h
    simp only at h
    rcases hrr : ob.reserve_balances order (OrderExecutionResult.freshResult stid)
      with ⟨ob1, er⟩
    rw [hrr] at h
    cases er with
    | error e2 =>
      simp only at h
      injection h with h1 h2
      injection h2 with h2
      rw [Orderbook.reserve_balances] at hrr
      simp only at hrr
      cases hb : bmFind ob.balances (order.main_account, (reserveAssetAmount order).1) with
      | none =>
        rw [hb] at hrr
        injection hrr with hr1 hr2
        injection hr2 with hr2
        constructor
        · intro he
          rw [← h2, ← hr2] at he
          cases he
        · intro _
          rw [← h1, ← hr1]
          refine ⟨rfl, rfl, rfl, rfl, rfl, Or.inr ⟨rfl, rfl, ?_⟩⟩
          intro k hk
          exact bmFind_bmPut_ne _ _ _ _ hk
      | some fr =>
        rw [hb] at hrr
        simp only at hrr
        by_cases hle : round9 (reserveAssetAmount order).2 ≤ fr.1
        · rw [if_pos hle] at hrr
          injection hrr with hr1 hr2
          cases hr2
        · rw [if_neg hle] at hrr
          injection hrr with hr1 hr2
          injection hr2 with hr2
          constructor
          · intro he
            rw [← h2, ← hr2] at he
            cases he
          · intro _
            rw [← h1, ← hr1]
            exact ⟨rfl, rfl, rfl, rfl, rfl, Or.inl rfl⟩
    | ok ch1 =>
      simp only at h
      cases hsu : Orderbook.settle_order_updates
          (if ob1.will_match order = true then
             ob1.match_order config order ch1.trades fuel
           else (ob1, order, ch1.trades)).1
          (if ob1.will_match order = true then
             ob1.match_order config order ch1.trades fuel
           else (ob1, order, ch1.trades)).2.1
          { ch1 with trades := (if ob1.will_match order = true then
              ob1.match_order config order ch1.trades fuel
            else (ob1, order, ch1.trades)).2.2 } with
      | error e3 =>
        rw [hsu] at h
        injection h with h1 h2
        injection h2 with h2
        have hkind := settle_order_updates_error_kind _ _ _ e3 hsu
        constructor
        · intro he
          rw [← h2, hkind] at he
          cases he
        · intro he
          rw [← h2, hkind] at he
          cases he
      | ok step3 =>
        rw [hsu] at h
        simp only at h
        injection h with h1 h2
        cases h2

/-- Witness for the amended C1 at a concrete input: the reservation failure
leaves books, price levels and fee collector unchanged, and only inserts the
zero entry for the missing key. -/
theorem c1_witness :
    (c1ob.process_order c1order 1 5).2 = Except.error EngineError.reserveFailed
    ∧ ((c1ob.process_order c1order 1 5).1.bid_books = c1ob.bid_books
       ∧ (c1ob.process_order c1order 1 5).1.ask_books = c1ob.ask_books
       ∧ (c1ob.process_order c1order 1 5).1.pricelevels = c1ob.pricelevels
       ∧ (c1ob.process_order c1order 1 5).1.trading_pairs = c1ob.trading_pairs
       ∧ (c1ob.process_order c1order 1 5).1.fees_collector = c1ob.fees_collector
       ∧ ((c1ob.process_order c1order 1 5).1.balances = c1ob.balances
          ∨ (bmFind c1ob.balances (c1order.main_account, (reserveAssetAmount c1order).1) = none
             ∧ (c1ob.process_order c1order 1 5).1.balances = bmPut c1ob.balances
                 (c1order.main_account, (reserveAssetAmount c1order).1) (0, 0)
             ∧ ∀ k, k ≠ (c1order.main_account, (reserveAssetAmount c1order).1) →
                 bmFind (c1ob.process_order c1order 1 5).1.balances k
                   = bmFind c1ob.balances k))) := by
  have h2 : (c1ob.process_order c1order 1 5).2
      = Except.error EngineError.reserveFailed := by decide!
  have hp : c1ob.process_order c1order 1 5
      = ((c1ob.process_order c1order 1 5).1, Except.error EngineError.reserveFailed) :=
    Prod.ext rfl h2
  exact ⟨h2, (c1_error_state_frame c1ob c1order 1 5 _ _ hp).2 rfl⟩

end MatchingEngine
